import Mathlib

/-! Query planner and execution core of the SPARQL engine.

A shallow embedding of `src/engine/sparqlExpressions/AggregateExpression.h`,
`src/engine/QueryExecutionContext.h`, `src/engine/QueryPlanner.h`,
`src/util/ConfigManager/ConfigOption.cpp` and `src/util/Iterators.h`, and
theorems about it.

Conventions of the embedding.

* The operand of an aggregate together with its evaluation context is the
  finite sequence of the values of the operand over the input rows, a `List`.
  `getResultSize` is the length of that list, `makeGenerator` enumerates it,
  and `valueGetterGenerator` enumerates the images under the value getter.
* `size_t` values are `Nat`; `int64_t` values are `Int`, reduced by
  `int64Wrap` after every arithmetic operation.
* The memory limit of `HashSetWithMemoryLimit` is a resource bound of the
  shared allocator and is outside of the model: insertions are never refused.
* `double` is an uninterpreted type with uninterpreted operations
  (`DoubleArith`); no property of floating point arithmetic is assumed.
-/

/-- Modelled from the spec: a SPARQL variable (`parser/data/Variable.h`
is not part of the sources), given by its name. -/
structure Variable where
  _name : String
  deriving DecidableEq, Repr

namespace sparqlExpression

/-! ## The generic aggregate evaluation -/

/-- Ways in which an evaluation ends without a result value. -/
inductive EvalError where
  /-- The check `AD_CONTRACT_CHECK(optionalResult)` failed. -/
  | contractCheckFailed
  /-- The begin iterator of a generator without elements was dereferenced
  (`ResultType result = *it`); the source gives no value for that. -/
  | dereferencedEmptyInput
  deriving DecidableEq, Repr

deriving instance DecidableEq for Except

/-- The final operation `noop`: nothing is done on the final result. -/
def noop {R : Type} (result : R) (_numElements : Nat) : R := result

/-- The aggregate operation of an `AggregateExpression`: the binary function,
the value getter (the two value getters of the source are identical by its
`static_assert`s, `std::get<0>` is used), and the specialised functions.

`toResultType` is the implicit conversion of `ResultType result = *it`, from
the type the value getter returns to the type `_function` returns.
The helpers `isAnySpecializedFunctionPossible` and
`evaluateOnSpecializedFunctionsIfPossible` are not part of the sources and
are taken as they are, applied to `_specializedFunctions`. -/
structure AggregateOperation (α V R E : Type) where
  _function : R → V → R
  _valueGetter : α → V
  toResultType : V → R
  isAnySpecializedFunctionPossible : List α → Bool
  evaluateOnSpecializedFunctionsIfPossible : List α → Option E

/-- The `insert` of the hash set of operands, the set being the list of its
members: the set afterwards and whether the insertion took place
(`.second` of the source). -/
def HashSetWithMemoryLimit.insert {α : Type} [DecidableEq α]
    (s : List α) (x : α) : List α × Bool :=
  if x ∈ s then (s, false) else (x :: s, true)

/-- One round of the loop of the distinct branch: the operand is inserted
into the hash set, and only if it was not contained before, the value getter
is applied and the function combines it into the result. -/
def distinctStep {α V R E : Type} [DecidableEq α]
    (aggregateOperation : AggregateOperation α V R E)
    (state : R × List α) (x : α) : R × List α :=
  let inserted := HashSetWithMemoryLimit.insert state.2 x
  if inserted.2 then
    (aggregateOperation._function state.1 (aggregateOperation._valueGetter x),
      inserted.1)
  else
    (state.1, inserted.1)

/-- The visitor `AggregateExpression::evaluateOnChildOperand`.
`toExpressionResult` is `makeNumericId` where that is defined for the result
type, and the conversion of the result into `ExpressionResult` otherwise. -/
def evaluateOnChildOperand {α V R E : Type} [DecidableEq α]
    (aggregateOperation : AggregateOperation α V R E)
    (finalOperation : R → Nat → R) (toExpressionResult : R → E)
    (distinct : Bool) (operand : List α) : Except EvalError E :=
  if aggregateOperation.isAnySpecializedFunctionPossible operand then
    match aggregateOperation.evaluateOnSpecializedFunctionsIfPossible operand with
    | some optionalResult => .ok optionalResult
    | none => .error .contractCheckFailed
  else
    let inputSize := operand.length
    let valueGetter := aggregateOperation._valueGetter
    if !distinct then
      match operand.map valueGetter with
      | [] => .error .dereferencedEmptyInput
      | first :: values =>
        let result := values.foldl aggregateOperation._function
          (aggregateOperation.toResultType first)
        .ok (toExpressionResult (finalOperation result inputSize))
    else
      match operand with
      | [] => .error .dereferencedEmptyInput
      | first :: operands =>
        let final := operands.foldl (distinctStep aggregateOperation)
          (aggregateOperation.toResultType (valueGetter first), [first])
        .ok (toExpressionResult (finalOperation final.1 final.2.length))

/-- An aggregate operation `AGG_OP<Function, ValueGetter>`: it has no
specialised functions. -/
def AGG_OP {α V R E : Type} (function : R → V → R) (valueGetter : α → V)
    (toResultType : V → R) : AggregateOperation α V R E where
  _function := function
  _valueGetter := valueGetter
  toResultType := toResultType
  isAnySpecializedFunctionPossible := fun _ => false
  evaluateOnSpecializedFunctionsIfPossible := fun _ => none

/-- The subsequence of the first occurrences: an element is kept, and its
later occurrences are removed from the rest. -/
def firstOccurrences {α : Type} [DecidableEq α] : List α → List α
  | [] => []
  | x :: xs => x :: (firstOccurrences xs).filter (fun y => decide (y ≠ x))

/-! ## COUNT -/

/-- The value of a machine integer of type `int64_t` that holds `z` after
reduction modulo `2 ^ 64`. -/
def int64Wrap (z : Int) : Int := (z + 2 ^ 63) % 2 ^ 64 - 2 ^ 63

/-- The conversion of a `bool` to an integer (integral promotion). -/
def boolToInt (b : Bool) : Int := if b then 1 else 0

/-- The lambda `count`: `a + b` as `int64_t`, where `a` is the result so
far and `b` the `bool` of the value getter. -/
def count (a : Int) (b : Bool) : Int := int64Wrap (a + boolToInt b)

/-- The aggregate operation of `CountExpressionBase`,
`AGG_OP<decltype(count), IsValidValueGetter>`. The `IsValidValueGetter` is
not part of the sources and is the parameter `isValid`. -/
def countOperation {α E : Type} (isValid : α → Bool) :
    AggregateOperation α Bool Int E :=
  AGG_OP count isValid boolToInt

/-- The evaluation of `CountExpression` on a child operand: the aggregate
operation of COUNT with the final operation `noop`; the `int64_t` result is
wrapped by `makeNumericId`. -/
def CountExpression.evaluateOnChildOperand {α E : Type} [DecidableEq α]
    (makeNumericId : Int → E) (isValid : α → Bool)
    (distinct : Bool) (operand : List α) : Except EvalError E :=
  sparqlExpression.evaluateOnChildOperand (countOperation isValid) noop
    makeNumericId distinct operand

/-! ## SUM and AVG -/

/-- The variant `NumericValue`: not numeric, a floating point number or an
integer. `D` is the type of the floating point numbers. -/
inductive NumericValue (D : Type) where
  | notNumeric
  | double (d : D)
  | int (i : Int)
  deriving DecidableEq, Repr

/-- The operations on `double` that the aggregates use: addition, division,
and the conversions from `int64_t` and from `size_t`. -/
structure DoubleArith (D : Type) where
  add : D → D → D
  div : D → D → D
  ofInt64 : Int → D
  ofSizeT : Nat → D

/-- A binary `NumericOperation` such as `std::plus<>` or `std::divides<>`:
what it does on two integers and on two floating point numbers. On one
integer and one floating point number the integer is converted first (usual
arithmetic conversions). -/
structure NumericOperation (D : Type) where
  onInts : Int → Int → Int
  onDoubles : D → D → D

/-- The operation `std::plus<>`. -/
def plus {D : Type} (A : DoubleArith D) : NumericOperation D where
  onInts := fun a b => int64Wrap (a + b)
  onDoubles := A.add

/-- The operation `std::divides<>`; the division of integers truncates. -/
def divides {D : Type} (A : DoubleArith D) : NumericOperation D where
  onInts := fun a b => int64Wrap (Int.tdiv a b)
  onDoubles := A.div

/-- The function returned by `makeNumericExpressionForAggregate` for two
arguments: `NotNumeric` if one of the arguments is `NotNumeric`, and the
numeric operation on the two numbers otherwise. -/
def makeNumericExpressionForAggregate {D : Type} (A : DoubleArith D)
    (numericOperation : NumericOperation D) :
    NumericValue D → NumericValue D → NumericValue D
  | .notNumeric, _ => .notNumeric
  | _, .notNumeric => .notNumeric
  | .int a, .int b => .int (numericOperation.onInts a b)
  | .int a, .double b => .double (numericOperation.onDoubles (A.ofInt64 a) b)
  | .double a, .int b => .double (numericOperation.onDoubles a (A.ofInt64 b))
  | .double a, .double b => .double (numericOperation.onDoubles a b)

/-- The function `addForSum`. -/
def addForSum {D : Type} (A : DoubleArith D) :
    NumericValue D → NumericValue D → NumericValue D :=
  makeNumericExpressionForAggregate A (plus A)

/-- The final operation `averageFinalOp`: the aggregation divided by the
number of elements, converted to `double`. -/
def averageFinalOp {D : Type} (A : DoubleArith D)
    (aggregation : NumericValue D) (numElements : Nat) : NumericValue D :=
  makeNumericExpressionForAggregate A (divides A) aggregation
    (.double (A.ofSizeT numElements))

/-- The aggregate operation `AGG_OP<decltype(addForSum), NumericValueGetter>`
of SUM and AVG. The `NumericValueGetter` is not part of the sources and is
the parameter `numericValueGetter`. -/
def sumOperation {α D E : Type} (A : DoubleArith D)
    (numericValueGetter : α → NumericValue D) :
    AggregateOperation α (NumericValue D) (NumericValue D) E :=
  AGG_OP (addForSum A) numericValueGetter id

/-- The evaluation of `SumExpression` on a child operand. -/
def SumExpression.evaluateOnChildOperand {α D E : Type} [DecidableEq α]
    (A : DoubleArith D) (makeNumericId : NumericValue D → E)
    (numericValueGetter : α → NumericValue D)
    (distinct : Bool) (operand : List α) : Except EvalError E :=
  sparqlExpression.evaluateOnChildOperand (sumOperation A numericValueGetter)
    noop makeNumericId distinct operand

/-- The evaluation of `AvgExpression` on a child operand: the aggregate
operation of SUM with the final operation `averageFinalOp`. -/
def AvgExpression.evaluateOnChildOperand {α D E : Type} [DecidableEq α]
    (A : DoubleArith D) (makeNumericId : NumericValue D → E)
    (numericValueGetter : α → NumericValue D)
    (distinct : Bool) (operand : List α) : Except EvalError E :=
  sparqlExpression.evaluateOnChildOperand (sumOperation A numericValueGetter)
    (averageFinalOp A) makeNumericId distinct operand

/-- The rows that take part in an aggregation: all rows, or the first
occurrences of the operands for a distinct aggregation. -/
def aggregatedRows {α : Type} [DecidableEq α] (distinct : Bool)
    (operand : List α) : List α :=
  if distinct then firstOccurrences operand else operand

/-- The sum of the numeric values of the rows `x :: xs`, added up from left
to right with `addForSum`. -/
def sumOfRows {α D : Type} (A : DoubleArith D)
    (numericValueGetter : α → NumericValue D) : List α → NumericValue D
  | [] => .notNumeric
  | x :: xs => (xs.map numericValueGetter).foldl (addForSum A)
      (numericValueGetter x)

/-- A number in the words of the spec: a numeric value that is not
`NotNumeric`, an integer or a floating point number. -/
inductive Number (D : Type) where
  | int (i : Int)
  | double (d : D)
  deriving DecidableEq, Repr

/-- The floating point number of a number; an integer is converted. -/
def Number.toDouble {D : Type} (A : DoubleArith D) : Number D → D
  | .int i => A.ofInt64 i
  | .double d => d

/-- The sum `numeric +` of two numbers in the words of the spec: two integers
are added as `int64_t`, that is modulo `2 ^ 64`, and as soon as one of the two
is a floating point number both are added as floating point numbers. -/
def Number.plus {D : Type} (A : DoubleArith D) : Number D → Number D → Number D
  | .int i, .int j => .int (int64Wrap (i + j))
  | a, b => .double (A.add (a.toDouble A) (b.toDouble A))

/-- Modelled from the spec: the datatype tag of an `Id` (the header
`global/ValueId.h` is not part of the sources). -/
inductive Datatype where
  | Undefined | Int | Double | VocabIndex | TextIndex | Bool | Date
  deriving DecidableEq, Repr

/-- Modelled from the spec: the type `Id` of `global/ValueId.h`, a 64 bit
tagged value. The datatype tag is held by the 4 most significant bits and
the payload by the 60 bits below. -/
structure Id where
  bits : Nat
  deriving DecidableEq, Repr

/-- The bits of an `Id`. -/
def Id.getBits (a : Id) : Nat := a.bits

/-- The `Id` of given bits. -/
def Id.fromBits (bits : Nat) : Id := ⟨bits⟩

/-- The undefined `Id`; all its bits are zero
(`static_assert(0u == Id::makeUndefined().getBits())`). -/
def Id.makeUndefined : Id := ⟨0⟩

/-- Modelled from the spec: the datatype of an `Id`, decoded from the tag
in the order in which the spec lists the datatypes. -/
def Id.getDatatype (a : Id) : Datatype :=
  match a.bits / 2 ^ 60 % 16 with
  | 0 => .Undefined
  | 1 => .Int
  | 2 => .Double
  | 3 => .VocabIndex
  | 4 => .TextIndex
  | 5 => .Bool
  | _ => .Date

/-- Modelled from the spec: the `Id` of an integer, the tag of `Int` above
the 60 bit twos complement of the integer. -/
def Id.makeFromInt (i : Int) : Id := ⟨2 ^ 60 + (i % 2 ^ 60).toNat⟩

/-- Modelled from the spec: the integer of an `Id` of datatype `Int`. -/
def Id.getInt (a : Id) : Int :=
  let payload : Int := (a.bits % 2 ^ 60 : Nat)
  if payload < 2 ^ 59 then payload else payload - 2 ^ 60

/-- The comparisons of `valueIdComparators::Comparison` that MIN and MAX
use. -/
inductive Comparison where
  | LT | GT
  deriving DecidableEq, Repr

/-- Modelled from the spec: `toBoolNotUndef` of
`compareIds<CompareByType>(a, b, comparison)` for two `Id`s that are not
undefined (`global/ValueIdComparators.h` is not part of the sources): two
integers are compared by their values, and in all other cases the `Id`s are
compared by datatype tag, then by payload, which is the order of the
bits. -/
def compareIdsByType (a b : Id) (comparison : Comparison) : Bool :=
  if a.getDatatype = .Int ∧ b.getDatatype = .Int then
    match comparison with
    | .LT => decide (a.getInt < b.getInt)
    | .GT => decide (a.getInt > b.getInt)
  else
    match comparison with
    | .LT => decide (a.bits < b.bits)
    | .GT => decide (a.bits > b.bits)

/-- The lambda `minMaxLambdaForAllTypes` on arithmetic types and strings:
the comparator (`std::min` or `std::max`) decides. -/
def minMaxLambdaForArithmetic {T : Type} (comparator : T → T → T)
    (a b : T) : T := comparator a b

/-- The lambda `minMaxLambdaForAllTypes` on `Id`s. `compareIds a b c` is
`toBoolNotUndef(compareIds<CompareByType>(a, b, c))`. -/
def minMaxLambdaForAllTypes (compareIds : Id → Id → Comparison → Bool)
    (comparison : Comparison) (a b : Id) : Id :=
  if a.getDatatype = .Undefined ∨ b.getDatatype = .Undefined then
    Id.fromBits (a.getBits ||| b.getBits)
  else if compareIds a b comparison then a else b

/-- The lambda `minLambdaForAllTypes` on `Id`s. -/
def minLambdaForAllTypes (compareIds : Id → Id → Comparison → Bool) :
    Id → Id → Id :=
  minMaxLambdaForAllTypes compareIds .LT

/-- The lambda `maxLambdaForAllTypes` on `Id`s. -/
def maxLambdaForAllTypes (compareIds : Id → Id → Comparison → Bool) :
    Id → Id → Id :=
  minMaxLambdaForAllTypes compareIds .GT

/-- The `ActualValueGetter` on `Id`s, which is not part of the sources: the
value of an `Id` is the `Id` itself. -/
def ActualValueGetter (id : Id) : Id := id

/-- The evaluation of `MinExpression` on a column of `Id`s; the result is an
`Id` and is returned as it is. -/
def MinExpression.evaluateOnChildOperand
    (compareIds : Id → Id → Comparison → Bool)
    (distinct : Bool) (operand : List Id) : Except EvalError Id :=
  sparqlExpression.evaluateOnChildOperand
    (AGG_OP (minLambdaForAllTypes compareIds) ActualValueGetter id)
    noop id distinct operand

/-- The evaluation of `MaxExpression` on a column of `Id`s. -/
def MaxExpression.evaluateOnChildOperand
    (compareIds : Id → Id → Comparison → Bool)
    (distinct : Bool) (operand : List Id) : Except EvalError Id :=
  sparqlExpression.evaluateOnChildOperand
    (AGG_OP (maxLambdaForAllTypes compareIds) ActualValueGetter id)
    noop id distinct operand

/-- The entry of a column that is undefined (`none`) or an integer. -/
def entryToId : Option Int → Id
  | none => Id.makeUndefined
  | some i => Id.makeFromInt i

/-- Whether the integer `i` comes before the integer `j` under a
comparison: `i < j` for `LT` and `i > j` for `GT`. -/
def Comparison.holds (comparison : Comparison) (i j : Int) : Bool :=
  match comparison with
  | .LT => decide (i < j)
  | .GT => decide (i > j)

/-- The smaller (for `LT`) or larger (for `GT`) of two entries of a column,
where an undefined entry yields to the other entry. -/
def pickEntry (comparison : Comparison) : Option Int → Option Int → Option Int
  | none, b => b
  | some i, none => some i
  | some i, some j => if comparison.holds i j then some i else some j

/-- Whether an entry of a column is undefined or an integer of 60 bits. -/
def entryInRange : Option Int → Prop
  | none => True
  | some i => -2 ^ 59 ≤ i ∧ i < 2 ^ 59

/-! ## The variable of a COUNT -/

/-- Modelled from the spec: the kinds of child expressions, as far as
`getVariableOrNullopt` tells them apart (`SparqlExpression.h` is not part of
the sources): a reference to a variable, or any other expression, given by
its cache key and its children. -/
inductive SparqlExpression where
  | variableExpression (v : Variable)
  | otherExpression (cacheKey : String) (children : List SparqlExpression)

/-- Modelled from the spec: the virtual function
`SparqlExpression::getVariableOrNullopt`, the variable of the expression if
the expression is a reference to a variable. -/
def SparqlExpression.getVariableOrNullopt : SparqlExpression → Option Variable
  | .variableExpression v => some v
  | .otherExpression _ _ => none

/-- The pair `SparqlExpressionPimpl::VariableAndDistinctness`. -/
structure VariableAndDistinctness where
  variable_ : Variable
  isDistinct_ : Bool
  deriving DecidableEq, Repr

/-- The members of a `CountExpression` that `getVariableForCount` reads:
the flag `_distinct` and the child. -/
structure CountExpression (Child : Type) where
  _distinct : Bool
  _child : Child

/-- The function `CountExpression::getVariableForCount`;
`getVariableOrNullopt` is the virtual function of the child. -/
def CountExpression.getVariableForCount {Child : Type}
    (getVariableOrNullopt : Child → Option Variable)
    (e : CountExpression Child) : Option VariableAndDistinctness :=
  match getVariableOrNullopt e._child with
  | some optionalVariable => some ⟨optionalVariable, e._distinct⟩
  | none => none

/-- An aggregate operation with a specialised function, for an example: the
operation of COUNT, with a specialised function that applies to the operand
without rows and returns `7`. -/
def countWithSpecializedFunction : AggregateOperation Nat Bool Int Int where
  _function := count
  _valueGetter := fun _ => true
  toResultType := boolToInt
  isAnySpecializedFunctionPossible := fun operand => operand.isEmpty
  evaluateOnSpecializedFunctionsIfPossible :=
    fun operand => if operand.isEmpty then some 7 else none

end sparqlExpression

/-! ## The cache of query results (`QueryExecutionContext.h`) -/

/-- Modelled from the spec: a `ResultTable` as far as the cache reads it,
its row count `size()` and its column count `width()`, both of type
`size_t` (`engine/ResultTable.h` is not part of the sources). -/
structure ResultTable where
  numRows : Nat
  numColumns : Nat
  deriving DecidableEq, Repr

/-- The number of rows, a `size_t`. -/
def ResultTable.size (t : ResultTable) : Nat := t.numRows % 2 ^ 64

/-- The number of columns, a `size_t`. -/
def ResultTable.width (t : ResultTable) : Nat := t.numColumns % 2 ^ 64

/-- The class `CacheValue`: a shared pointer to a result table, which may be
null (`none`), and the runtime information. -/
structure CacheValue (RuntimeInformation : Type) where
  _resultTable : Option ResultTable
  _runtimeInfo : RuntimeInformation

/-- The constructor of `CacheValue`: `std::make_shared` of the result
table. -/
def CacheValue.new {RuntimeInformation : Type} (resultTable : ResultTable)
    (runtimeInfo : RuntimeInformation) : CacheValue RuntimeInformation where
  _resultTable := some resultTable
  _runtimeInfo := runtimeInfo

/-- The function `CacheValue::size`, a product of two `size_t`. -/
def CacheValue.size {RuntimeInformation : Type}
    (v : CacheValue RuntimeInformation) : Nat :=
  match v._resultTable with
  | some resultTable => (resultTable.size * resultTable.width) % 2 ^ 64
  | none => 0

/-- Modelled from the spec: the entries of a `ConcurrentLruCache`
(`util/ConcurrentCache.h` is not part of the sources), the pinned ones and
the ones that are not pinned, each a key with its value. -/
structure ConcurrentLruCache (RuntimeInformation : Type) where
  pinnedEntries : List (String × CacheValue RuntimeInformation)
  nonPinnedEntries : List (String × CacheValue RuntimeInformation)

/-- Modelled from the spec: `ConcurrentLruCache::clearAll` evicts
everything including the pinned entries. -/
def ConcurrentLruCache.clearAll {RuntimeInformation : Type}
    (_cache : ConcurrentLruCache RuntimeInformation) :
    ConcurrentLruCache RuntimeInformation where
  pinnedEntries := []
  nonPinnedEntries := []

/-- The class `QueryResultCache`: the cache it inherits from and the table
`_pinnedSizes`, a hash map from keys to sizes, here the list of its
entries. The locks of `_pinnedSizes` have no part in the model, the
functions are sequential. -/
structure QueryResultCache (RuntimeInformation : Type) where
  base : ConcurrentLruCache RuntimeInformation
  _pinnedSizes : List (String × Nat)

/-- The function `QueryResultCache::clearAll`: the inherited `clearAll`,
then `clear` of the pinned sizes. -/
def QueryResultCache.clearAll {RuntimeInformation : Type}
    (cache : QueryResultCache RuntimeInformation) :
    QueryResultCache RuntimeInformation where
  base := cache.base.clearAll
  _pinnedSizes := []

/-- The function `QueryResultCache::getPinnedSize`. -/
def QueryResultCache.getPinnedSize {RuntimeInformation : Type}
    (cache : QueryResultCache RuntimeInformation) (key : String) : Option Nat :=
  if (cache._pinnedSizes.lookup key).isSome then
    cache._pinnedSizes.lookup key
  else
    none

/-! ## The query planner (`QueryPlanner.h`) -/

/-- Modelled from the spec: a component of a triple, a concrete IRI or
literal, a variable, or undefined (`TripleComponent.h` is not part of the
sources). -/
inductive TripleComponent where
  | iri (s : String)
  | literal (s : String)
  | var (v : Variable)
  | UNDEF
  deriving DecidableEq, Repr

/-- Modelled from the spec: a property path, a single IRI (which is a
variable, if it is the name of a variable) or a sequence, an alternative, a
transitive path with bounds or an inverse path (`PropertyPath.h` is not part
of the sources). -/
inductive PropertyPath where
  | IRI (_iri : String)
  | SEQUENCE (left right : PropertyPath)
  | ALTERNATIVE (left right : PropertyPath)
  | TRANSITIVE (child : PropertyPath)
  | TRANSITIVE_MIN (child : PropertyPath) (limit : Nat)
  | TRANSITIVE_MAX (child : PropertyPath) (limit : Nat)
  | INVERSE (child : PropertyPath)
  deriving DecidableEq, Repr

/-- The member `_iri` of a property path; it is empty if the path is not a
single IRI. -/
def PropertyPath._iri : PropertyPath → String
  | .IRI iri => iri
  | _ => ""

/-- Modelled from the spec: a triple of subject, predicate and object. -/
structure SparqlTriple where
  _s : TripleComponent
  _p : PropertyPath
  _o : TripleComponent
  deriving DecidableEq, Repr

/-- Modelled from the spec: whether a component of a triple is a
variable. -/
def isVariable (component : TripleComponent) : Bool :=
  match component with
  | .var _ => true
  | _ => false

/-- Modelled from the spec: whether a predicate is a variable, that is a
single IRI that starts with a question mark. -/
def isVariablePath (path : PropertyPath) : Bool :=
  match path with
  | .IRI iri => iri.get 0 == '?'
  | _ => false

/-- The vars of a set with the variable of a component inserted, if the
component is a variable (`_variables.insert(t.getVariable())` under
`isVariable(t)`). -/
def insertIfVariable (vars : Finset Variable)
    (component : TripleComponent) : Finset Variable :=
  match component with
  | .var v => insert v vars
  | _ => vars

/-- The vars of a set with the variable `Variable{p._iri}` inserted, if
the predicate `p` is a variable. -/
def insertIfVariablePath (vars : Finset Variable)
    (path : PropertyPath) : Finset Variable :=
  if isVariablePath path then insert ⟨path._iri⟩ vars else vars

/-- The vars of a set with those of the subject, the predicate and the
object of a triple inserted, in this order. -/
def insertVariablesOfTriple (vars : Finset Variable)
    (t : SparqlTriple) : Finset Variable :=
  insertIfVariable (insertIfVariablePath (insertIfVariable vars t._s) t._p) t._o

/-- Whether a variable occurs in a triple, as its subject, as its predicate
or as its object. -/
def variableOccursIn (v : Variable) (t : SparqlTriple) : Prop :=
  t._s = .var v ∨ (isVariablePath t._p = true ∧ v = ⟨t._p._iri⟩) ∨ t._o = .var v

namespace TripleGraph

/-- The struct `TripleGraph::Node`; the hash set `_variables` is a finite
set. -/
structure Node where
  _id : Nat
  _triple : SparqlTriple
  _variables : Finset Variable
  _cvar : Option Variable
  _wordPart : Option (List String)
  deriving DecidableEq

/-- The constructor `Node(size_t id, SparqlTriple t)`. -/
def Node.ofTriple (id : Nat) (t : SparqlTriple) : Node where
  _id := id
  _triple := t
  _variables := insertVariablesOfTriple ∅ t
  _cvar := none
  _wordPart := none

/-- The constructor `Node(id, cvar, words, trips)` of the node of a text
clique. The constant `INTERNAL_TEXT_MATCH_PREDICATE` of `global/Constants.h`
is not part of the sources and is the parameter `textMatchPredicate`. -/
def Node.ofTextClique (textMatchPredicate : String) (id : Nat) (cvar : Variable)
    (words : List String) (trips : List SparqlTriple) : Node where
  _id := id
  _triple := ⟨.var cvar, .IRI textMatchPredicate, .UNDEF⟩
  _variables := trips.foldl insertVariablesOfTriple (insert cvar ∅)
  _cvar := some cvar
  _wordPart := some words

end TripleGraph

/-- The class `QueryPlanner::TripleGraph`: the adjacency lists, the map from
the ids to the nodes and the storage of the nodes. -/
structure TripleGraph where
  _adjLists : List (List Nat)
  _nodeMap : List (Nat × TripleGraph.Node)
  _nodeStorage : List TripleGraph.Node

/-- The nodes of the triples of a pattern, with the ids `start`,
`start + 1` and so on. -/
def TripleGraph.nodesOfTriples (start : Nat) :
    List SparqlTriple → List TripleGraph.Node
  | [] => []
  | t :: ts => TripleGraph.Node.ofTriple start t :: nodesOfTriples (start + 1) ts

/-- Whether two nodes are to be joined by an edge: they are different nodes
and their sets of variables intersect. -/
def TripleGraph.shareVariable (a b : TripleGraph.Node) : Bool :=
  decide (a._id ≠ b._id) && decide ((a._variables ∩ b._variables).Nonempty)

/-- Modelled from the spec: `QueryPlanner::createTripleGraph`, of which the
sources have the declaration only (`QueryPlanner.cpp` is not part of them).
From a basic graph pattern, given by its triples, one node per triple is
created, with the ids `0, 1, ...`, and an edge is inserted between two nodes
if and only if their variable sets intersect. -/
def createTripleGraph (triples : List SparqlTriple) : TripleGraph :=
  let nodes := TripleGraph.nodesOfTriples 0 triples
  { _adjLists := nodes.map (fun node =>
      (nodes.filter (TripleGraph.shareVariable node)).map (fun other => other._id))
    _nodeMap := nodes.map (fun node => (node._id, node))
    _nodeStorage := nodes }

/-- Whether the node with id `j` is in the adjacency list of the node with
id `i`. -/
def TripleGraph.adjacent (graph : TripleGraph) (i j : Nat) : Prop :=
  ∃ adjList, graph._adjLists[i]? = some adjList ∧ j ∈ adjList

/-- The class `QueryPlanner::SubtreePlan` as far as
`findCheapestExecutionTree` reads it: the cost estimate `getCostEstimate()`
and the cache key of the execution tree `_qet`. -/
structure SubtreePlan where
  costEstimate : Nat
  cacheKey : String
  deriving DecidableEq, Repr

/-- The class `QueryPlanner`; `_qec` is a pointer that may be null. -/
structure QueryPlanner (QueryExecutionContext : Type) where
  _qec : Option QueryExecutionContext
  _internalVarCount : Nat
  _enablePatternTrick : Bool

/-- The function `QueryPlanner::isInTestMode`: the planner has no execution
context. -/
def QueryPlanner.isInTestMode {QueryExecutionContext : Type}
    (planner : QueryPlanner QueryExecutionContext) : Bool :=
  planner._qec.isNone

/-- The search for the first smallest element (`std::min_element`): the
index of the smallest element so far is replaced by the index `index` of the
next element if that element is less. -/
def minElementFrom {α : Type} (less : α → α → Bool) (smallest : α)
    (smallestIndex : Nat) : Nat → List α → Nat
  | _, [] => smallestIndex
  | index, x :: xs =>
    if less x smallest then minElementFrom less x index (index + 1) xs
    else minElementFrom less smallest smallestIndex (index + 1) xs

/-- The comparison of two plans: by the cost estimate, and in the test mode
by the cache key if the cost estimates are equal. -/
def cheaperPlan (testMode : Bool) (a b : SubtreePlan) : Bool :=
  if a.costEstimate = b.costEstimate ∧ testMode = true then
    decide (a.cacheKey < b.cacheKey)
  else
    decide (a.costEstimate < b.costEstimate)

/-- Modelled from the spec: `QueryPlanner::findCheapestExecutionTree`, of
which the sources have the declaration and its comment only. It returns the
index of the first plan of minimum cost; in the test mode plans of equal cost
are compared by their cache keys. A row without plans has no index. -/
def QueryPlanner.findCheapestExecutionTree {QueryExecutionContext : Type}
    (planner : QueryPlanner QueryExecutionContext)
    (lastRow : List SubtreePlan) : Option Nat :=
  match lastRow with
  | [] => none
  | plan :: plans =>
    some (minElementFrom (cheaperPlan planner.isInTestMode) plan 0 1 plans)

namespace ad_utility

/-! ## Configuration options (`ConfigOption.cpp`) -/

/-- A value of the JSON library (`util/json.h`, an external library): null, a
boolean, a signed integer, an unsigned integer, a floating point number, a
string, an array or an object. `D` is the type of the floating point
numbers. -/
inductive Json (D : Type) where
  | null
  | boolean (b : Bool)
  | number_integer (i : Int)
  | number_unsigned (n : Nat)
  | number_float (d : D)
  | string (s : String)
  | array (entries : List (Json D))
  | object (members : List (String × Json D))

/-- The function `is_boolean` of a JSON value. -/
def Json.is_boolean {D : Type} : Json D → Bool
  | .boolean _ => true
  | _ => false

/-- The function `is_string` of a JSON value. -/
def Json.is_string {D : Type} : Json D → Bool
  | .string _ => true
  | _ => false

/-- The function `is_number_integer` of a JSON value: it holds for signed
and for unsigned integers. -/
def Json.is_number_integer {D : Type} : Json D → Bool
  | .number_integer _ => true
  | .number_unsigned _ => true
  | _ => false

/-- The function `is_number_unsigned` of a JSON value. -/
def Json.is_number_unsigned {D : Type} : Json D → Bool
  | .number_unsigned _ => true
  | _ => false

/-- The function `is_number_float` of a JSON value. -/
def Json.is_number_float {D : Type} : Json D → Bool
  | .number_float _ => true
  | _ => false

/-- The function `is_array` of a JSON value. -/
def Json.is_array {D : Type} : Json D → Bool
  | .array _ => true
  | _ => false

/-- The entries of a JSON value over which `std::ranges::all_of` runs. -/
def Json.entries {D : Type} : Json D → List (Json D)
  | .array entries => entries
  | _ => []

/-- The types of `AvailableTypes` that are no vectors. -/
inductive BaseType where
  | bool | string | int | size_t | float
  deriving DecidableEq, Repr

/-- The ten types of `AvailableTypes`: the five base types and the vectors
of them. -/
inductive ValueType where
  | base (t : BaseType)
  | vector (inner : BaseType)
  deriving DecidableEq, Repr

/-- The types of `AvailableTypes` in the order of the variant. -/
def ValueType.all : List ValueType :=
  [.base .bool, .base .string, .base .int, .base .size_t, .base .float,
    .vector .bool, .vector .string, .vector .int, .vector .size_t, .vector .float]

/-- A value of the variant `AvailableTypes`. A `float` is a floating point
number of `D` that a `float` can hold. -/
inductive AvailableTypes (D : Type) where
  | bool (b : Bool)
  | string (s : String)
  | int (i : Int)
  | size_t (n : Nat)
  | float (f : D)
  | vectorBool (l : List Bool)
  | vectorString (l : List String)
  | vectorInt (l : List Int)
  | vectorSizeT (l : List Nat)
  | vectorFloat (l : List D)
  deriving DecidableEq, Repr

/-- The function `availableTypesToString<T>` on the base types. -/
def BaseType.toTypeString : BaseType → String
  | .bool => "boolean"
  | .string => "string"
  | .int => "integer"
  | .size_t => "unsigned integer"
  | .float => "float"

/-- The function `ConfigOption::availableTypesToString<T>`. -/
def availableTypesToString : ValueType → String
  | .base t => t.toTypeString
  | .vector inner => "list of " ++ inner.toTypeString ++ "s"

/-- The lambda `isValueTypeSubType` of `setValueWithJson` for a base
type. -/
def isValueTypeSubTypeBase {D : Type} (t : BaseType) (j : Json D) : Bool :=
  match t with
  | .bool => j.is_boolean
  | .string => j.is_string
  | .int => j.is_number_integer
  | .size_t => j.is_number_unsigned
  | .float => j.is_number_float

/-- The lambda `isValueTypeSubType` of `setValueWithJson`: whether the JSON
value represents the type. For a vector the JSON value is an array, and all
its entries represent the inner type. -/
def isValueTypeSubType {D : Type} (t : ValueType) (j : Json D) : Bool :=
  match t with
  | .base b => isValueTypeSubTypeBase b j
  | .vector inner => j.is_array && j.entries.all (isValueTypeSubTypeBase inner)

/-- The value of a machine integer of type `int` (32 bits) that holds `z`
after reduction modulo `2 ^ 32`. -/
def int32Wrap (z : Int) : Int := (z + 2 ^ 31) % 2 ^ 32 - 2 ^ 31

/-- The conversion `get<bool>` of a JSON value that represents `bool`. -/
def Json.getBool {D : Type} : Json D → Option Bool
  | .boolean b => some b
  | _ => none

/-- The conversion `get<std::string>` of a JSON value that represents a
string. -/
def Json.getString {D : Type} : Json D → Option String
  | .string s => some s
  | _ => none

/-- The conversion `get<int>` of a JSON value that represents `int`, a
`static_cast` of the integer to `int`. -/
def Json.getInt {D : Type} : Json D → Option Int
  | .number_integer i => some (int32Wrap i)
  | .number_unsigned n => some (int32Wrap n)
  | _ => none

/-- The conversion `get<size_t>` of a JSON value that represents
`size_t`. -/
def Json.getSizeT {D : Type} : Json D → Option Nat
  | .number_unsigned n => some (n % 2 ^ 64)
  | _ => none

/-- The conversion `get<float>` of a JSON value that represents `float`, a
`static_cast` to `float`, which is `roundToFloat`. -/
def Json.getFloat {D : Type} (roundToFloat : D → D) : Json D → Option D
  | .number_float d => some (roundToFloat d)
  | _ => none

/-- The conversion of the entries of an array, one after the other; there
is no value if one of the entries has none. -/
def Json.getEntries {D α : Type} (getEntry : Json D → Option α) :
    List (Json D) → Option (List α)
  | [] => some []
  | entry :: entries =>
    match getEntry entry, Json.getEntries getEntry entries with
    | some value, some values => some (value :: values)
    | _, _ => none

/-- The conversion `json.get<T>()` for a JSON value that represents the type
`T`; there is no value for the JSON values that do not represent `T`, which
`setValueWithJson` never converts. -/
def Json.get {D : Type} (roundToFloat : D → D) (t : ValueType) (j : Json D) :
    Option (AvailableTypes D) :=
  match t with
  | .base .bool => j.getBool.map .bool
  | .base .string => j.getString.map .string
  | .base .int => j.getInt.map .int
  | .base .size_t => j.getSizeT.map .size_t
  | .base .float => (j.getFloat roundToFloat).map .float
  | .vector .bool =>
    if j.is_array then (Json.getEntries Json.getBool j.entries).map .vectorBool else none
  | .vector .string =>
    if j.is_array then (Json.getEntries Json.getString j.entries).map .vectorString else none
  | .vector .int =>
    if j.is_array then (Json.getEntries Json.getInt j.entries).map .vectorInt else none
  | .vector .size_t =>
    if j.is_array then (Json.getEntries Json.getSizeT j.entries).map .vectorSizeT else none
  | .vector .float =>
    if j.is_array then
      (Json.getEntries (Json.getFloat roundToFloat) j.entries).map .vectorFloat
    else none

/-- The exceptions of a configuration option. -/
inductive ConfigException where
  /-- The exception `ConfigOptionSetWrongJsonTypeException`, with the
  identifier of the option, the type of the option and the type that the
  JSON value represents. -/
  | ConfigOptionSetWrongJsonTypeException (optionIdentifier : String)
      (valueTypeOfOption : String) (valueTypeRepresentedByJson : String)
  /-- The exception of `json.get<T>()` for a JSON value of a wrong type. -/
  | jsonTypeError
  /-- A failed `AD_CONTRACT_CHECK`. -/
  | contractCheckFailed
  deriving DecidableEq, Repr

/-- The class `ConfigOption`. The variant `data_` is given by the type of
its alternative `Data<T>`, the default value `defaultValue_` and the
variable that `variablePointer_` points to. -/
structure ConfigOption (D : Type) where
  identifier_ : String
  description_ : String
  type : ValueType
  defaultValue_ : Option (AvailableTypes D)
  pointee : AvailableTypes D
  configurationOptionWasSet_ : Bool
  deriving DecidableEq, Repr

/-- The function `ConfigOption::wasSetAtRuntime`. -/
def ConfigOption.wasSetAtRuntime {D : Type} (o : ConfigOption D) : Bool :=
  o.configurationOptionWasSet_

/-- The function `ConfigOption::hasDefaultValue`. -/
def ConfigOption.hasDefaultValue {D : Type} (o : ConfigOption D) : Bool :=
  o.defaultValue_.isSome

/-- The function `ConfigOption::wasSet`. -/
def ConfigOption.wasSet {D : Type} (o : ConfigOption D) : Bool :=
  o.wasSetAtRuntime || o.hasDefaultValue

/-- The function `ConfigOption::getActualValueTypeAsString`. -/
def ConfigOption.getActualValueTypeAsString {D : Type} (o : ConfigOption D) :
    String :=
  availableTypesToString o.type

/-- The function `ConfigOption::setValue` for a value of the type of the
option (`ConfigOption.h` is not part of the sources): the variable that
`variablePointer_` points to is assigned. -/
def ConfigOption.setValue {D : Type} (o : ConfigOption D)
    (value : AvailableTypes D) : ConfigOption D :=
  { o with pointee := value }

/-- The function `ConfigOption::setValueWithJson`: the option afterwards, or
the exception. -/
def ConfigOption.setValueWithJson {D : Type} (roundToFloat : D → D)
    (o : ConfigOption D) (json : Json D) :
    Except ConfigException (ConfigOption D) :=
  if !isValueTypeSubType o.type json then
    match ValueType.all.find? (fun alternativeType =>
        isValueTypeSubType alternativeType json) with
    | some alternativeType =>
      .error (.ConfigOptionSetWrongJsonTypeException o.identifier_
        o.getActualValueTypeAsString (availableTypesToString alternativeType))
    | none =>
      .error (.ConfigOptionSetWrongJsonTypeException o.identifier_
        o.getActualValueTypeAsString "unknown")
  else
    match json.get roundToFloat o.type with
    | some value =>
      .ok { o.setValue value with configurationOptionWasSet_ := true }
    | none => .error .jsonTypeError

/-! ## Iterators for an access operator (`Iterators.h`) -/

/-- The lambda `accessViaBracketOperator` on a vector, which is a list: the
element with the index `i`, which exists for the valid indices only. -/
def accessViaBracketOperator {α : Type} (randomAccessContainer : List α)
    (i : Nat) : Option α :=
  randomAccessContainer[i]?

/-- The class `IteratorForAccessOperator`: a pointer to the container, which
may be null, and the index, a `uint64_t`. The accessor is a parameter of the
functions that use it. -/
structure IteratorForAccessOperator (C : Type) where
  _vector : Option C
  _index : Nat

namespace IteratorForAccessOperator

/-- The constructor `IteratorForAccessOperator(vec, index)`. -/
def new {C : Type} (vec : C) (index : Nat) : IteratorForAccessOperator C :=
  ⟨some vec, index⟩

/-- The operator `==`: only the indices are compared. -/
def eq {C : Type} (a rhs : IteratorForAccessOperator C) : Bool :=
  a._index == rhs._index

/-- The operator `+=` for a non-negative `n`. -/
def addAssign {C : Type} (it : IteratorForAccessOperator C) (n : Nat) :
    IteratorForAccessOperator C :=
  { it with _index := (it._index + n) % 2 ^ 64 }

/-- The operator `++`. -/
def increment {C : Type} (it : IteratorForAccessOperator C) :
    IteratorForAccessOperator C :=
  { it with _index := (it._index + 1) % 2 ^ 64 }

/-- The operator `*`: the accessor on the container and the index; there is
no value if the pointer to the container is null. -/
def deref {C V : Type} (accessor : C → Nat → V)
    (it : IteratorForAccessOperator C) : Option V :=
  match it._vector with
  | some vec => some (accessor vec it._index)
  | none => none

/-- The loop `for (it = first; it != last; ++it)` that collects `*it`, with
at most `fuel` rounds; there is no result if the fuel does not suffice or a
null pointer is dereferenced. -/
def collect {C V : Type} (accessor : C → Nat → V) :
    Nat → IteratorForAccessOperator C → IteratorForAccessOperator C →
      Option (List V)
  | 0, it, last => if it.eq last then some [] else none
  | fuel + 1, it, last =>
    if it.eq last then some []
    else
      match it.deref accessor, collect accessor fuel it.increment last with
      | some value, some values => some (value :: values)
      | _, _ => none

end IteratorForAccessOperator

end ad_utility

/-! ## Similar nodes of a triple graph -/

/-- The function `TripleGraph::Node::isSimilar`: the triples, the context
variables, the word parts and the sets of variables are equal. -/
def TripleGraph.Node.isSimilar (a other : TripleGraph.Node) : Bool :=
  decide (a._triple = other._triple) && decide (a._cvar = other._cvar)
    && decide (a._wordPart = other._wordPart)
    && decide (a._variables = other._variables)

namespace ad_utility

/-! ## Reading a configuration option -/

/-- The function `lazyStrJoin` (`util/StringUtils.h` is not part of the
sources): the strings, with the separator between them. -/
def lazyStrJoin (strings : List String) (separator : String) : String :=
  separator.intercalate strings

/-- The rendering of a `bool` in `contentOfAvailableTypesToString`. -/
def boolToString (content : Bool) : String :=
  if content then "true" else "false"

/-- The rendering of a string in `contentOfAvailableTypesToString`: the
string in double quotes. -/
def quoteString (content : String) : String :=
  "\"" ++ content ++ "\""

/-- The rendering of a vector in `contentOfAvailableTypesToString`: the
renderings of the entries, joined by a comma and a blank, in braces. -/
def vectorToString {α : Type} (entryToString : α → String)
    (content : List α) : String :=
  "\x7b" ++ lazyStrJoin (content.map entryToString) ", " ++ "\x7d"

/-- The function `ConfigOption::contentOfAvailableTypesToString`.
`std::to_string` of an integer is its decimal representation; `std::to_string`
of a `float` is the parameter `floatToString`. -/
def contentOfAvailableTypesToString {D : Type} (floatToString : D → String) :
    Option (AvailableTypes D) → String
  | none => "None"
  | some (.string content) => quoteString content
  | some (.bool content) => boolToString content
  | some (.int content) => toString content
  | some (.size_t content) => toString content
  | some (.float content) => floatToString content
  | some (.vectorBool content) => vectorToString boolToString content
  | some (.vectorString content) => vectorToString quoteString content
  | some (.vectorInt content) => vectorToString (fun entry => toString entry) content
  | some (.vectorSizeT content) => vectorToString (fun entry => toString entry) content
  | some (.vectorFloat content) => vectorToString floatToString content

/-- The conversion `nlohmann::json(value)` of a value of `AvailableTypes`:
an `int` becomes a signed integer, a `size_t` an unsigned integer, a vector
an array. -/
def AvailableTypes.toJson {D : Type} : AvailableTypes D → Json D
  | .bool b => .boolean b
  | .string s => .string s
  | .int i => .number_integer i
  | .size_t n => .number_unsigned n
  | .float f => .number_float f
  | .vectorBool l => .array (l.map .boolean)
  | .vectorString l => .array (l.map .string)
  | .vectorInt l => .array (l.map .number_integer)
  | .vectorSizeT l => .array (l.map .number_unsigned)
  | .vectorFloat l => .array (l.map .number_float)

/-- The function `ConfigOption::getValueAsString`. -/
def ConfigOption.getValueAsString {D : Type} (floatToString : D → String)
    (o : ConfigOption D) : Except ConfigException String :=
  if o.wasSet then
    .ok (contentOfAvailableTypesToString floatToString (some o.pointee))
  else
    .error .contractCheckFailed

/-- The function `ConfigOption::getValueAsJson`. -/
def ConfigOption.getValueAsJson {D : Type} (o : ConfigOption D) :
    Except ConfigException (Json D) :=
  if o.wasSet then .ok o.pointee.toJson else .error .contractCheckFailed

/-- The function `getDummyValue<DummyType>`. The `float` of a literal with
the decimal digits `digits`, the last `scale` of them behind the point, is
`floatLiteral digits scale`. -/
def getDummyValue {D : Type} (floatLiteral : Nat → Nat → D) :
    ValueType → AvailableTypes D
  | .base .bool => .bool false
  | .base .string => .string "Example string"
  | .base .int => .int (-42)
  | .base .size_t => .size_t 42
  | .base .float => .float (floatLiteral 42 1)
  | .vector .bool => .vectorBool [true, false]
  | .vector .string => .vectorString ["Example", "string", "list"]
  | .vector .int => .vectorInt [40, -41, 42]
  | .vector .size_t => .vectorSizeT [40, 41, 42]
  | .vector .float =>
    .vectorFloat [floatLiteral 400 1, floatLiteral 411 1, floatLiteral 422 1]

/-- The function `ConfigOption::getDummyValueAsJson`. -/
def ConfigOption.getDummyValueAsJson {D : Type} (floatLiteral : Nat → Nat → D)
    (o : ConfigOption D) : Json D :=
  (getDummyValue floatLiteral o.type).toJson

/-- The function `ConfigOption::getDummyValueAsString`. -/
def ConfigOption.getDummyValueAsString {D : Type} (floatLiteral : Nat → Nat → D)
    (floatToString : D → String) (o : ConfigOption D) : String :=
  contentOfAvailableTypesToString floatToString
    (some (getDummyValue floatLiteral o.type))

/-- The function `ConfigOption::setValueWithJson` as a sequence of
statements on the option: the option after the call, and the exception that
left the call, if any. -/
def ConfigOption.setValueWithJsonStatements {D : Type} (roundToFloat : D → D)
    (o : ConfigOption D) (json : Json D) :
    ConfigOption D × Option ConfigException :=
  if !isValueTypeSubType o.type json then
    match ValueType.all.find? (fun alternativeType =>
        isValueTypeSubType alternativeType json) with
    | some alternativeType =>
      (o, some (.ConfigOptionSetWrongJsonTypeException o.identifier_
        o.getActualValueTypeAsString (availableTypesToString alternativeType)))
    | none =>
      (o, some (.ConfigOptionSetWrongJsonTypeException o.identifier_
        o.getActualValueTypeAsString "unknown"))
  else
    match json.get roundToFloat o.type with
    | none => (o, some .jsonTypeError)
    | some value =>
      let afterSetValue := o.setValue value
      ({ afterSetValue with configurationOptionWasSet_ := true }, none)

/-- The comparisons of the JSON library that involve floating point
numbers: the equality of two of them, and the conversions of a signed and of
an unsigned integer. -/
structure JsonFloat (D : Type) where
  eq : D → D → Bool
  ofInt64 : Int → D
  ofUInt64 : Nat → D

mutual
/-- The operator `==` of the JSON library: values of the same kind are
compared by their content, and numbers of different kinds after the
conversion of the unsigned integer to a signed one, or of the integer to a
floating point number. -/
def Json.equals {D : Type} (F : JsonFloat D) : Json D → Json D → Bool
  | .null, .null => true
  | .boolean a, .boolean b => a == b
  | .number_integer a, .number_integer b => a == b
  | .number_unsigned a, .number_unsigned b => a == b
  | .number_integer a, .number_unsigned b => a == sparqlExpression.int64Wrap b
  | .number_unsigned a, .number_integer b => sparqlExpression.int64Wrap a == b
  | .number_float a, .number_float b => F.eq a b
  | .number_float a, .number_integer b => F.eq a (F.ofInt64 b)
  | .number_integer a, .number_float b => F.eq (F.ofInt64 a) b
  | .number_float a, .number_unsigned b => F.eq a (F.ofUInt64 b)
  | .number_unsigned a, .number_float b => F.eq (F.ofUInt64 a) b
  | .string a, .string b => a == b
  | .array a, .array b => Json.equalsEntries F a b
  | .object a, .object b => Json.equalsMembers F a b
  | _, _ => false
/-- The equality of the entries of two arrays. -/
def Json.equalsEntries {D : Type} (F : JsonFloat D) :
    List (Json D) → List (Json D) → Bool
  | [], [] => true
  | a :: as, b :: bs => Json.equals F a b && Json.equalsEntries F as bs
  | _, _ => false
/-- The equality of the members of two objects. -/
def Json.equalsMembers {D : Type} (F : JsonFloat D) :
    List (String × Json D) → List (String × Json D) → Bool
  | [], [] => true
  | (key, a) :: as, (otherKey, b) :: bs =>
    key == otherKey && Json.equals F a b && Json.equalsMembers F as bs
  | _, _ => false
end

end ad_utility

namespace sparqlExpression

/-! ## Theorems on the generic evaluation -/

section generic
variable {α V R E : Type} [DecidableEq α]

theorem mem_firstOccurrences (xs : List α) (y : α) :
    y ∈ firstOccurrences xs ↔ y ∈ xs := by
  induction xs with
  | nil => simp [firstOccurrences]
  | cons x xs ih =>
    by_cases h : y = x
    · simp [firstOccurrences, h]
    · simp [firstOccurrences, h, ih]

theorem firstOccurrences_nodup (xs : List α) : (firstOccurrences xs).Nodup := by
  induction xs with
  | nil => simp [firstOccurrences]
  | cons x xs ih =>
    simp only [firstOccurrences, List.nodup_cons]
    exact ⟨by simp [List.mem_filter], ih.filter _⟩

theorem firstOccurrences_length (xs : List α) :
    (firstOccurrences xs).length = xs.toFinset.card := by
  rw [← List.toFinset_card_of_nodup (firstOccurrences_nodup xs)]
  congr 1
  ext y
  simp [mem_firstOccurrences]

theorem firstOccurrences_map_of_injOn {β : Type} [DecidableEq β] (f : α → β)
    (xs : List α) (hinj : ∀ a ∈ xs, ∀ b ∈ xs, f a = f b → a = b) :
    firstOccurrences (xs.map f) = (firstOccurrences xs).map f := by
  induction xs with
  | nil => simp [firstOccurrences]
  | cons x xs ih =>
    have ih1 := ih (fun a ha b hb => hinj a (List.mem_cons_of_mem _ ha) b
      (List.mem_cons_of_mem _ hb))
    simp only [List.map_cons, firstOccurrences, ih1, List.filter_map]
    congr 2
    apply List.filter_congr
    intro y hy
    have hy1 : y ∈ xs := (mem_firstOccurrences xs y).1 hy
    have hiff : f y = f x ↔ y = x :=
      ⟨hinj y (List.mem_cons_of_mem _ hy1) x (List.mem_cons_self _ _),
        fun h => by rw [h]⟩
    simp [hiff]

/-- The loop of the distinct branch, started with the result `r` and the hash
set `seen`: the function is folded over the first occurrences that are not
in `seen`, and these are what the hash set gains. -/
theorem foldl_distinctStep (op : AggregateOperation α V R E) (xs : List α) :
    ∀ (r : R) (seen : List α),
      xs.foldl (distinctStep op) (r, seen)
        = ((((firstOccurrences xs).filter (fun y => decide (y ∉ seen))).map
              op._valueGetter).foldl op._function r,
            ((firstOccurrences xs).filter (fun y => decide (y ∉ seen))).reverse
              ++ seen) := by
  induction xs with
  | nil => intro r seen; simp [firstOccurrences]
  | cons x xs ih =>
    intro r seen
    by_cases hx : x ∈ seen
    · have hfilter : ((firstOccurrences xs).filter (fun y => decide (y ≠ x))).filter
            (fun y => decide (y ∉ seen))
          = (firstOccurrences xs).filter (fun y => decide (y ∉ seen)) := by
        rw [List.filter_filter]
        apply List.filter_congr
        intro y _
        by_cases hy : y = x
        · simp [hy, hx]
        · simp [hy]
      have hstep : distinctStep op (r, seen) x = (r, seen) := by
        simp [distinctStep, HashSetWithMemoryLimit.insert, hx]
      rw [List.foldl_cons, hstep, ih]
      simp only [firstOccurrences]
      rw [List.filter_cons_of_neg (by simpa using hx), hfilter]
    · have hfilter : ((firstOccurrences xs).filter (fun y => decide (y ≠ x))).filter
            (fun y => decide (y ∉ seen))
          = (firstOccurrences xs).filter (fun y => decide (y ∉ x :: seen)) := by
        rw [List.filter_filter]
        apply List.filter_congr
        intro y _
        by_cases hy : y = x
        · simp [hy]
        · simp [hy]
      have hstep : distinctStep op (r, seen) x
          = (op._function r (op._valueGetter x), x :: seen) := by
        simp [distinctStep, HashSetWithMemoryLimit.insert, hx]
      rw [List.foldl_cons, hstep, ih]
      simp only [firstOccurrences]
      rw [List.filter_cons_of_pos (by simpa using hx), hfilter]
      simp only [List.map_cons, List.foldl_cons, List.reverse_cons,
        List.append_assoc, List.singleton_append]

/-- The distinct evaluation of a non-empty operand sequence without an
applicable specialised function, in closed form. -/
theorem distinct_closedForm
    (op : AggregateOperation α V R E) (G : R → Nat → R) (wrap : R → E)
    (x : α) (xs : List α)
    (hspec : op.isAnySpecializedFunctionPossible (x :: xs) = false) :
    evaluateOnChildOperand op G wrap true (x :: xs)
      = .ok (wrap (G
          (((firstOccurrences (x :: xs)).tail.map op._valueGetter).foldl
            op._function (op.toResultType (op._valueGetter x)))
          (firstOccurrences (x :: xs)).length)) := by
  have hmem : (fun y => decide (y ∉ [x])) = (fun y => decide (y ≠ x)) := by
    funext y; simp
  simp only [evaluateOnChildOperand, hspec, foldl_distinctStep, hmem]
  simp [firstOccurrences]

/-- The non-distinct evaluation of a non-empty operand sequence without an
applicable specialised function, in closed form. -/
theorem nonDistinct_closedForm
    (op : AggregateOperation α V R E) (G : R → Nat → R) (wrap : R → E)
    (x : α) (xs : List α)
    (hspec : op.isAnySpecializedFunctionPossible (x :: xs) = false) :
    evaluateOnChildOperand op G wrap false (x :: xs)
      = .ok (wrap (G
          ((xs.map op._valueGetter).foldl op._function
            (op.toResultType (op._valueGetter x)))
          (x :: xs).length)) := by
  simp [evaluateOnChildOperand, hspec]

/-- The evaluation of a non-empty operand sequence by an aggregate operation
without specialised functions, for both values of `distinct`: the rows that
are aggregated are `aggregatedRows distinct (x :: xs)`, and their first row
is `x`. -/
theorem evaluateOnChildOperand_AGG_OP (F : R → V → R) (g : α → V) (conv : V → R)
    (G : R → Nat → R) (wrap : R → E) (distinct : Bool) (x : α) (xs : List α) :
    evaluateOnChildOperand (AGG_OP F g conv) G wrap distinct (x :: xs)
      = .ok (wrap (G
          (((aggregatedRows distinct (x :: xs)).tail.map g).foldl F (conv (g x)))
          (aggregatedRows distinct (x :: xs)).length)) := by
  cases distinct with
  | false =>
    rw [nonDistinct_closedForm _ _ _ _ _ rfl]
    simp [aggregatedRows, AGG_OP]
  | true =>
    rw [distinct_closedForm _ _ _ _ _ rfl]
    simp [aggregatedRows, AGG_OP]

theorem aggregatedRows_cons (distinct : Bool) (x : α) (xs : List α) :
    aggregatedRows distinct (x :: xs)
      = x :: (aggregatedRows distinct (x :: xs)).tail := by
  cases distinct <;> simp [aggregatedRows, firstOccurrences]

theorem mem_aggregatedRows (distinct : Bool) (xs : List α) (y : α) :
    y ∈ aggregatedRows distinct xs ↔ y ∈ xs := by
  cases distinct <;> simp [aggregatedRows, mem_firstOccurrences]

/-- C1: for a non-empty operand sequence `x :: xs`, `distinct = false` and no
specialised function applicable, the evaluation returns the final operation,
applied once to the left fold of the function over the value getter images
(seeded with the image of the first operand) and to the input size. -/
theorem evaluateOnChildOperand_nonDistinct
    (op : AggregateOperation α V R E) (G : R → Nat → R) (wrap : R → E)
    (x : α) (xs : List α)
    (hspec : op.isAnySpecializedFunctionPossible (x :: xs) = false) :
    evaluateOnChildOperand op G wrap false (x :: xs)
      = .ok (wrap (G
          ((xs.map op._valueGetter).foldl op._function
            (op.toResultType (op._valueGetter x)))
          (x :: xs).length)) := by
  simp [evaluateOnChildOperand, hspec]

/-- C2: for a non-empty operand sequence `x :: xs` and `distinct = true` (no
specialised function applicable), the evaluation returns what the non-distinct
evaluation returns on the subsequence of the first occurrences of the
operands, which are compared before the value getter is applied; the final
operation receives the number of distinct operands. -/
theorem evaluateOnChildOperand_distinct
    (op : AggregateOperation α V R E) (G : R → Nat → R) (wrap : R → E)
    (x : α) (xs : List α)
    (hspec : op.isAnySpecializedFunctionPossible (x :: xs) = false)
    (hspecFirst :
      op.isAnySpecializedFunctionPossible (firstOccurrences (x :: xs)) = false) :
    evaluateOnChildOperand op G wrap true (x :: xs)
        = evaluateOnChildOperand op G wrap false (firstOccurrences (x :: xs))
      ∧ evaluateOnChildOperand op G wrap true (x :: xs)
        = .ok (wrap (G
            (((firstOccurrences (x :: xs)).tail.map op._valueGetter).foldl
              op._function (op.toResultType (op._valueGetter x)))
            (x :: xs).toFinset.card)) := by
  have hfirst : firstOccurrences (x :: xs)
      = x :: (firstOccurrences (x :: xs)).tail := by simp [firstOccurrences]
  refine ⟨?_, ?_⟩
  · rw [distinct_closedForm op G wrap x xs hspec]
    rw [hfirst] at hspecFirst
    have h := nonDistinct_closedForm op G wrap x
      (firstOccurrences (x :: xs)).tail hspecFirst
    rw [← hfirst] at h
    exact h.symm
  · rw [distinct_closedForm op G wrap x xs hspec,
      firstOccurrences_length]

end generic

/-! ## Theorems on COUNT -/

theorem int64Wrap_of_range (z : Int) (hlo : -2 ^ 63 ≤ z) (hhi : z < 2 ^ 63) :
    int64Wrap z = z := by
  unfold int64Wrap
  omega

theorem boolToInt_nonneg (b : Bool) : 0 ≤ boolToInt b := by
  cases b <;> simp [boolToInt]

theorem boolToInt_le_one (b : Bool) : boolToInt b ≤ 1 := by
  cases b <;> simp [boolToInt]

theorem countP_cons_boolToInt {α : Type} (isValid : α → Bool) (x : α)
    (xs : List α) :
    ((List.countP isValid (x :: xs) : Nat) : Int)
      = boolToInt (isValid x) + (List.countP isValid xs : Nat) := by
  cases h : isValid x <;> simp [List.countP_cons, h, boolToInt]
  omega

/-- The loop of COUNT adds the number of valid rows to the result, as long
as the sum stays within `int64_t`. -/
theorem foldl_count {α : Type} (isValid : α → Bool) (xs : List α) :
    ∀ acc : Int, 0 ≤ acc → acc + xs.length < 2 ^ 63 →
      (xs.map isValid).foldl count acc = acc + (List.countP isValid xs : Nat) := by
  induction xs with
  | nil => intro acc _ _; simp
  | cons x xs ih =>
    intro acc h0 hlt
    have hb0 := boolToInt_nonneg (isValid x)
    have hb1 := boolToInt_le_one (isValid x)
    have hlen : ((x :: xs).length : Int) = xs.length + 1 := by simp
    rw [hlen] at hlt
    have hstep : count acc (isValid x) = acc + boolToInt (isValid x) := by
      unfold count
      apply int64Wrap_of_range <;> omega
    rw [List.map_cons, List.foldl_cons, hstep, ih _ (by omega) (by omega),
      countP_cons_boolToInt]
    omega

section countTheorems
variable {α E : Type} [DecidableEq α]

/-- COUNT of the non-empty sequence `x :: xs` is the number of the valid
rows among the aggregated rows. -/
theorem countExpression_closedForm (makeNumericId : Int → E)
    (isValid : α → Bool) (distinct : Bool) (x : α) (xs : List α)
    (hsize : (aggregatedRows distinct (x :: xs)).length < 2 ^ 63) :
    CountExpression.evaluateOnChildOperand makeNumericId isValid distinct (x :: xs)
      = .ok (makeNumericId
          (List.countP isValid (aggregatedRows distinct (x :: xs)) : Nat)) := by
  unfold CountExpression.evaluateOnChildOperand countOperation
  rw [evaluateOnChildOperand_AGG_OP]
  have hrows := aggregatedRows_cons distinct x xs
  have hlen : (((aggregatedRows distinct (x :: xs)).length : Nat) : Int)
      = ((aggregatedRows distinct (x :: xs)).tail.length : Nat) + 1 := by
    conv_lhs => rw [hrows]
    simp
  have hsize1 : (((aggregatedRows distinct (x :: xs)).length : Nat) : Int) < 2 ^ 63 := by
    exact_mod_cast hsize
  have hb0 := boolToInt_nonneg (isValid x)
  have hb1 := boolToInt_le_one (isValid x)
  rw [foldl_count isValid _ _ hb0 (by omega)]
  have hcount : ((List.countP isValid (aggregatedRows distinct (x :: xs)) : Nat) : Int)
      = boolToInt (isValid x)
        + (List.countP isValid (aggregatedRows distinct (x :: xs)).tail : Nat) := by
    conv_lhs => rw [hrows]
    exact countP_cons_boolToInt isValid x _
  rw [hcount]
  rfl

theorem countP_eq_card_filter_of_nodup (p : α → Bool) (l : List α)
    (hl : l.Nodup) :
    List.countP p l = (l.toFinset.filter (fun y => p y = true)).card := by
  rw [List.countP_eq_length_filter, ← List.toFinset_card_of_nodup (hl.filter _),
    List.toFinset_filter]

theorem firstOccurrences_toFinset (xs : List α) :
    (firstOccurrences xs).toFinset = xs.toFinset := by
  ext y
  simp [mem_firstOccurrences]

/-- C3: COUNT without DISTINCT of a non-empty sequence returns the number of
the input rows that the `IsValidValueGetter` reports as valid; the final
operation is `noop`. The number of rows is within `int64_t`. -/
theorem count_nonDistinct (makeNumericId : Int → E) (isValid : α → Bool)
    (x : α) (xs : List α) (hsize : (x :: xs).length < 2 ^ 63) :
    CountExpression.evaluateOnChildOperand makeNumericId isValid false (x :: xs)
      = .ok (makeNumericId (List.countP isValid (x :: xs) : Nat)) := by
  have h := countExpression_closedForm makeNumericId isValid
    false x xs (by simpa [aggregatedRows] using hsize)
  simpa [aggregatedRows] using h

/-- C4: COUNT with DISTINCT of a non-empty sequence returns the number of
the pairwise different operands that are valid; a duplicate of an operand
adds nothing. -/
theorem count_distinct (makeNumericId : Int → E) (isValid : α → Bool)
    (x : α) (xs : List α) (hsize : (x :: xs).length < 2 ^ 63) :
    CountExpression.evaluateOnChildOperand makeNumericId isValid true (x :: xs)
      = .ok (makeNumericId
          (((x :: xs).toFinset.filter (fun y => isValid y = true)).card : Nat)) := by
  have hle : (firstOccurrences (x :: xs)).length ≤ (x :: xs).length := by
    rw [firstOccurrences_length]
    exact List.toFinset_card_le _
  have h := countExpression_closedForm makeNumericId isValid
    true x xs (by simp only [aggregatedRows, if_true]; omega)
  rw [h]
  simp only [aggregatedRows, if_true]
  rw [countP_eq_card_filter_of_nodup isValid _ (firstOccurrences_nodup _),
    firstOccurrences_toFinset]

/-- C5: COUNT of an empty sequence has no value: for both values of
`distinct` the evaluation dereferences the begin iterator of the empty
generator, it does not return `0`. -/
theorem count_emptyInput (makeNumericId : Int → E) (isValid : α → Bool)
    (distinct : Bool) :
    CountExpression.evaluateOnChildOperand makeNumericId isValid distinct []
      = .error .dereferencedEmptyInput := by
  cases distinct <;> rfl

end countTheorems

/-- A witness of C1: with subtraction as the function and the product with
the input size as the final operation, the rows `10, 3, 2` give
`((10 - 3) - 2) * 3`. -/
theorem evaluateOnChildOperand_nonDistinct_witness :
    (AGG_OP (E := Int) (fun r v : Int => r - v) (fun n : Int => n)
        (fun v => v)).isAnySpecializedFunctionPossible [10, 3, 2] = false
      ∧ evaluateOnChildOperand
          (AGG_OP (fun r v : Int => r - v) (fun n : Int => n) (fun v => v))
          (fun r n => r * n) (fun r : Int => r) false [10, 3, 2]
        = .ok 15 :=
  ⟨rfl, (evaluateOnChildOperand_nonDistinct
    (AGG_OP (fun r v : Int => r - v) (fun n : Int => n) (fun v => v))
    (fun r n => r * n) (fun r : Int => r) 10 [3, 2] rfl).trans (by decide)⟩

/-- A witness of C2: the rows `10, 3, 10, 2, 3` have the first occurrences
`10, 3, 2`, and the final operation receives `3`. -/
theorem evaluateOnChildOperand_distinct_witness :
    (AGG_OP (E := Int) (fun r v : Int => r - v) (fun n : Int => n)
        (fun v => v)).isAnySpecializedFunctionPossible [10, 3, 10, 2, 3] = false
      ∧ (AGG_OP (E := Int) (fun r v : Int => r - v) (fun n : Int => n)
        (fun v => v)).isAnySpecializedFunctionPossible
          (firstOccurrences [10, 3, 10, 2, 3]) = false
      ∧ evaluateOnChildOperand
          (AGG_OP (fun r v : Int => r - v) (fun n : Int => n) (fun v => v))
          (fun r n => r * n) (fun r : Int => r) true [10, 3, 10, 2, 3]
        = evaluateOnChildOperand
          (AGG_OP (fun r v : Int => r - v) (fun n : Int => n) (fun v => v))
          (fun r n => r * n) (fun r : Int => r) false [10, 3, 2]
      ∧ evaluateOnChildOperand
          (AGG_OP (fun r v : Int => r - v) (fun n : Int => n) (fun v => v))
          (fun r n => r * n) (fun r : Int => r) true [10, 3, 10, 2, 3]
        = .ok 15 :=
  ⟨rfl, rfl,
    (evaluateOnChildOperand_distinct
      (AGG_OP (fun r v : Int => r - v) (fun n : Int => n) (fun v => v))
      (fun r n => r * n) (fun r : Int => r) 10 [3, 10, 2, 3] rfl rfl).1.trans
      (by decide),
    (evaluateOnChildOperand_distinct
      (AGG_OP (fun r v : Int => r - v) (fun n : Int => n) (fun v => v))
      (fun r n => r * n) (fun r : Int => r) 10 [3, 10, 2, 3] rfl rfl).2.trans
      (by decide)⟩

/-- A witness of C3: of the rows `1, 2, 1` those different from `2` are
valid, COUNT is `2`. -/
theorem count_nonDistinct_witness :
    [1, 2, 1].length < 2 ^ 63
      ∧ CountExpression.evaluateOnChildOperand (fun r : Int => r)
          (fun n : Nat => decide (n ≠ 2)) false [1, 2, 1] = .ok 2 :=
  ⟨by decide, (count_nonDistinct (fun r : Int => r)
    (fun n : Nat => decide (n ≠ 2)) 1 [2, 1] (by decide)).trans (by decide)⟩

/-- A witness of C4: the operands `p1, p2, p1` (here `1, 2, 1`), all valid,
give `2`. -/
theorem count_distinct_witness :
    [1, 2, 1].length < 2 ^ 63
      ∧ CountExpression.evaluateOnChildOperand (fun r : Int => r)
          (fun _ : Nat => true) true [1, 2, 1] = .ok 2 :=
  ⟨by decide, (count_distinct (fun r : Int => r)
    (fun _ : Nat => true) 1 [2, 1] (by decide)).trans (by decide)⟩

/-! ## Theorems on SUM and AVG -/

section sumTheorems
variable {α D E : Type} [DecidableEq α]

theorem sumOfRows_aggregatedRows (A : DoubleArith D) (g : α → NumericValue D)
    (distinct : Bool) (x : α) (xs : List α) :
    sumOfRows A g (aggregatedRows distinct (x :: xs))
      = ((aggregatedRows distinct (x :: xs)).tail.map g).foldl (addForSum A)
          (g x) := by
  rw [aggregatedRows_cons]
  rfl

/-- SUM of the non-empty sequence `x :: xs` is the sum of the aggregated
rows. -/
theorem sumExpression_closedForm (A : DoubleArith D)
    (makeNumericId : NumericValue D → E) (g : α → NumericValue D)
    (distinct : Bool) (x : α) (xs : List α) :
    SumExpression.evaluateOnChildOperand A makeNumericId g distinct (x :: xs)
      = .ok (makeNumericId (sumOfRows A g (aggregatedRows distinct (x :: xs)))) := by
  unfold SumExpression.evaluateOnChildOperand sumOperation
  rw [evaluateOnChildOperand_AGG_OP, sumOfRows_aggregatedRows]
  rfl

/-- AVG of the non-empty sequence `x :: xs` is `averageFinalOp` of the sum
of the aggregated rows and of their number. -/
theorem avgExpression_closedForm (A : DoubleArith D)
    (makeNumericId : NumericValue D → E) (g : α → NumericValue D)
    (distinct : Bool) (x : α) (xs : List α) :
    AvgExpression.evaluateOnChildOperand A makeNumericId g distinct (x :: xs)
      = .ok (makeNumericId (averageFinalOp A
          (sumOfRows A g (aggregatedRows distinct (x :: xs)))
          (aggregatedRows distinct (x :: xs)).length)) := by
  unfold AvgExpression.evaluateOnChildOperand sumOperation
  rw [evaluateOnChildOperand_AGG_OP, sumOfRows_aggregatedRows]
  rfl

/-- C6: AVG of an empty sequence has no value: for both values of `distinct`
the evaluation dereferences the begin iterator of the empty generator, it
does not return the undefined value. -/
theorem avg_emptyInput (A : DoubleArith D) (makeNumericId : NumericValue D → E)
    (g : α → NumericValue D) (distinct : Bool) :
    AvgExpression.evaluateOnChildOperand A makeNumericId g distinct []
      = .error .dereferencedEmptyInput := by
  cases distinct <;> rfl

/-- C8: AVG of a non-empty sequence is `averageFinalOp` of the SUM of the
aggregated rows and of their count: the number of input rows for
`distinct = false`, the number of distinct operands for `distinct = true`.
The final operation divides the sum by the count converted to `double`, and
is `NotNumeric` if the sum is `NotNumeric`. -/
theorem avg_eq_sum_div_count (A : DoubleArith D)
    (makeNumericId : NumericValue D → E) (g : α → NumericValue D)
    (distinct : Bool) (x : α) (xs : List α) :
    AvgExpression.evaluateOnChildOperand A makeNumericId g distinct (x :: xs)
        = .ok (makeNumericId (averageFinalOp A
            (sumOfRows A g (aggregatedRows distinct (x :: xs)))
            (if distinct then (x :: xs).toFinset.card else (x :: xs).length)))
      ∧ SumExpression.evaluateOnChildOperand A makeNumericId g distinct (x :: xs)
        = .ok (makeNumericId (sumOfRows A g (aggregatedRows distinct (x :: xs))))
      ∧ (∀ n : Nat, averageFinalOp A .notNumeric n = .notNumeric)
      ∧ (∀ (i : Int) (n : Nat), averageFinalOp A (.int i) n
          = .double (A.div (A.ofInt64 i) (A.ofSizeT n)))
      ∧ (∀ (d : D) (n : Nat), averageFinalOp A (.double d) n
          = .double (A.div d (A.ofSizeT n))) := by
  refine ⟨?_, sumExpression_closedForm A makeNumericId g distinct x xs,
    fun _ => rfl, fun _ _ => rfl, fun _ _ => rfl⟩
  rw [avgExpression_closedForm]
  cases distinct with
  | false => simp [aggregatedRows]
  | true => simp only [aggregatedRows, if_true, firstOccurrences_length]

end sumTheorems

theorem Id.getDatatype_makeUndefined : Id.makeUndefined.getDatatype = .Undefined := by
  decide

theorem Id.getDatatype_makeFromInt (i : Int) :
    (Id.makeFromInt i).getDatatype = .Int := by
  have h : (2 ^ 60 + (i % 2 ^ 60).toNat) / 2 ^ 60 % 16 = 1 := by omega
  simp only [Id.getDatatype, Id.makeFromInt, h]

theorem Id.getInt_makeFromInt (i : Int) (hlo : -2 ^ 59 ≤ i) (hhi : i < 2 ^ 59) :
    (Id.makeFromInt i).getInt = i := by
  simp only [Id.getInt, Id.makeFromInt]
  split <;> omega

theorem Id.makeFromInt_ne_makeUndefined (i : Int) :
    Id.makeFromInt i ≠ Id.makeUndefined := by
  intro h
  have hd := congrArg Id.getDatatype h
  rw [Id.getDatatype_makeFromInt, Id.getDatatype_makeUndefined] at hd
  exact absurd hd (by decide)

theorem entryToId_injOn (a b : Option Int) (ha : entryInRange a)
    (hb : entryInRange b) (h : entryToId a = entryToId b) : a = b := by
  cases a with
  | none =>
    cases b with
    | none => rfl
    | some j => exact absurd h.symm (Id.makeFromInt_ne_makeUndefined j)
  | some i =>
    cases b with
    | none => exact absurd h (Id.makeFromInt_ne_makeUndefined i)
    | some j =>
      have hg := congrArg Id.getInt h
      simp only [entryToId] at hg
      rw [Id.getInt_makeFromInt i ha.1 ha.2, Id.getInt_makeFromInt j hb.1 hb.2] at hg
      rw [hg]

/-- The comparison of the model orders the `Id`s of integers by the
integers. -/
theorem compareIdsByType_makeFromInt (comparison : Comparison) (i j : Int)
    (hi : -2 ^ 59 ≤ i ∧ i < 2 ^ 59) (hj : -2 ^ 59 ≤ j ∧ j < 2 ^ 59) :
    compareIdsByType (Id.makeFromInt i) (Id.makeFromInt j) comparison
      = comparison.holds i j := by
  simp only [compareIdsByType, Id.getDatatype_makeFromInt, and_self, if_true,
    Id.getInt_makeFromInt i hi.1 hi.2, Id.getInt_makeFromInt j hj.1 hj.2]
  cases comparison <;> rfl

theorem pickEntry_inRange (comparison : Comparison) (a b : Option Int)
    (ha : entryInRange a) (hb : entryInRange b) :
    entryInRange (pickEntry comparison a b) := by
  cases a with
  | none => exact hb
  | some i =>
    cases b with
    | none => exact ha
    | some j =>
      simp only [pickEntry]
      split
      · exact ha
      · exact hb

theorem minMaxLambdaForAllTypes_makeUndefined_left
    (compareIds : Id → Id → Comparison → Bool) (comparison : Comparison) (a : Id) :
    minMaxLambdaForAllTypes compareIds comparison Id.makeUndefined a = a := by
  unfold minMaxLambdaForAllTypes
  rw [if_pos (Or.inl Id.getDatatype_makeUndefined)]
  simp [Id.fromBits, Id.getBits, Id.makeUndefined]

theorem minMaxLambdaForAllTypes_makeUndefined_right
    (compareIds : Id → Id → Comparison → Bool) (comparison : Comparison) (a : Id) :
    minMaxLambdaForAllTypes compareIds comparison a Id.makeUndefined = a := by
  unfold minMaxLambdaForAllTypes
  rw [if_pos (Or.inr Id.getDatatype_makeUndefined)]
  simp [Id.fromBits, Id.getBits, Id.makeUndefined]

/-- One application of the lambda of MIN or MAX to the `Id`s of two
entries. -/
theorem minMaxLambdaForAllTypes_entryToId
    (compareIds : Id → Id → Comparison → Bool) (comparison : Comparison)
    (hcompare : ∀ i j : Int, -2 ^ 59 ≤ i ∧ i < 2 ^ 59 → -2 ^ 59 ≤ j ∧ j < 2 ^ 59 →
      compareIds (Id.makeFromInt i) (Id.makeFromInt j) comparison
        = comparison.holds i j)
    (a b : Option Int) (ha : entryInRange a) (hb : entryInRange b) :
    minMaxLambdaForAllTypes compareIds comparison (entryToId a) (entryToId b)
      = entryToId (pickEntry comparison a b) := by
  cases a with
  | none =>
    exact minMaxLambdaForAllTypes_makeUndefined_left compareIds comparison _
  | some i =>
    cases b with
    | none =>
      exact minMaxLambdaForAllTypes_makeUndefined_right compareIds comparison _
    | some j =>
      simp only [minMaxLambdaForAllTypes, entryToId, pickEntry,
        Id.getDatatype_makeFromInt, hcompare i j ha hb]
      simp only [reduceCtorEq, or_self, if_false]
      split <;> rfl

theorem foldl_minMaxLambdaForAllTypes
    (compareIds : Id → Id → Comparison → Bool) (comparison : Comparison)
    (hcompare : ∀ i j : Int, -2 ^ 59 ≤ i ∧ i < 2 ^ 59 → -2 ^ 59 ≤ j ∧ j < 2 ^ 59 →
      compareIds (Id.makeFromInt i) (Id.makeFromInt j) comparison
        = comparison.holds i j)
    (es : List (Option Int)) :
    ∀ acc : Option Int, entryInRange acc → (∀ e ∈ es, entryInRange e) →
      (es.map entryToId).foldl (minMaxLambdaForAllTypes compareIds comparison)
          (entryToId acc)
        = entryToId (es.foldl (pickEntry comparison) acc) := by
  induction es with
  | nil => intro acc _ _; rfl
  | cons e es ih =>
    intro acc hacc hes
    have he := hes e (List.mem_cons_self _ _)
    rw [List.map_cons, List.foldl_cons, List.foldl_cons,
      minMaxLambdaForAllTypes_entryToId compareIds comparison hcompare acc e hacc he,
      ih _ (pickEntry_inRange comparison acc e hacc he)
        (fun z hz => hes z (List.mem_cons_of_mem _ hz))]

/-- The fold of `pickEntry` yields an entry of the column, and an integer
that no integer of the column comes before as soon as the column has an
integer. -/
theorem foldl_pickEntry (comparison : Comparison) (es : List (Option Int)) :
    ∀ acc : Option Int,
      es.foldl (pickEntry comparison) acc ∈ acc :: es
        ∧ ∀ j : Int, some j ∈ acc :: es →
            ∃ m : Int, es.foldl (pickEntry comparison) acc = some m
              ∧ comparison.holds j m = false := by
  induction es with
  | nil =>
    intro acc
    refine ⟨by simp, ?_⟩
    intro j hj
    simp only [List.mem_singleton] at hj
    refine ⟨j, by simp [hj], ?_⟩
    cases comparison <;> simp [Comparison.holds]
  | cons e es ih =>
    intro acc
    obtain ⟨hmem, hbest⟩ := ih (pickEntry comparison acc e)
    have hpick : pickEntry comparison acc e = acc ∨ pickEntry comparison acc e = e := by
      cases acc with
      | none => exact Or.inr rfl
      | some i =>
        cases e with
        | none => exact Or.inl rfl
        | some k =>
          simp only [pickEntry]
          split
          · exact Or.inl rfl
          · exact Or.inr rfl
    have hfirst : ∀ j : Int, (some j = acc ∨ some j = e) →
        ∃ p : Int, pickEntry comparison acc e = some p
          ∧ comparison.holds j p = false := by
      intro j hj
      cases acc with
      | none =>
        cases e with
        | none => simp at hj
        | some k =>
          simp only [false_or, reduceCtorEq, Option.some.injEq] at hj
          refine ⟨k, rfl, ?_⟩
          cases comparison <;> simp [Comparison.holds, hj]
      | some i =>
        cases e with
        | none =>
          simp only [or_false, reduceCtorEq, Option.some.injEq] at hj
          refine ⟨i, rfl, ?_⟩
          cases comparison <;> simp [Comparison.holds, hj]
        | some k =>
          simp only [Option.some.injEq] at hj
          by_cases hik : comparison.holds i k = true
          · refine ⟨i, by simp [pickEntry, hik], ?_⟩
            cases comparison <;> simp [Comparison.holds] at hik ⊢ <;> omega
          · refine ⟨k, by simp [pickEntry, hik], ?_⟩
            cases comparison <;> simp [Comparison.holds] at hik ⊢ <;> omega
    refine ⟨?_, ?_⟩
    · rw [List.foldl_cons]
      rcases List.mem_cons.1 hmem with h | h
      · rw [h]
        rcases hpick with hp | hp
        · rw [hp]; exact List.mem_cons_self _ _
        · rw [hp]; exact List.mem_cons_of_mem _ (List.mem_cons_self _ _)
      · exact List.mem_cons_of_mem _ (List.mem_cons_of_mem _ h)
    · intro j hj
      rw [List.foldl_cons]
      have hj1 : (some j = acc ∨ some j = e) ∨ some j ∈ es := by
        simp only [List.mem_cons] at hj
        tauto
      rcases hj1 with hj1 | hj1
      · obtain ⟨p, hp, hjp⟩ := hfirst j hj1
        obtain ⟨m, hm, hpm⟩ := hbest p (by rw [hp]; exact List.mem_cons_self _ _)
        refine ⟨m, hm, ?_⟩
        cases comparison <;> simp [Comparison.holds] at hjp hpm ⊢ <;> omega
      · exact hbest j (List.mem_cons_of_mem _ hj1)

/-- MIN (for `LT`) and MAX (for `GT`) of a non-empty column of undefined
entries and integers: the fold of `pickEntry` over the aggregated entries. -/
theorem evaluateOnChildOperand_minMax
    (compareIds : Id → Id → Comparison → Bool) (comparison : Comparison)
    (hcompare : ∀ i j : Int, -2 ^ 59 ≤ i ∧ i < 2 ^ 59 → -2 ^ 59 ≤ j ∧ j < 2 ^ 59 →
      compareIds (Id.makeFromInt i) (Id.makeFromInt j) comparison
        = comparison.holds i j)
    (distinct : Bool) (e : Option Int) (es : List (Option Int))
    (hrange : ∀ a ∈ e :: es, entryInRange a) :
    evaluateOnChildOperand
        (AGG_OP (minMaxLambdaForAllTypes compareIds comparison) ActualValueGetter id)
        noop id distinct ((e :: es).map entryToId)
      = .ok (entryToId
          ((aggregatedRows distinct (e :: es)).tail.foldl (pickEntry comparison) e)) := by
  have hrows : aggregatedRows distinct ((e :: es).map entryToId)
      = (aggregatedRows distinct (e :: es)).map entryToId := by
    cases distinct with
    | false => simp [aggregatedRows]
    | true =>
      simp only [aggregatedRows, if_true]
      exact firstOccurrences_map_of_injOn entryToId (e :: es)
        (fun a ha b hb h => entryToId_injOn a b (hrange a ha) (hrange b hb) h)
  have hgetter : ∀ l : List Id, l.map ActualValueGetter = l := by
    intro l
    induction l with
    | nil => rfl
    | cons a l ih => rw [List.map_cons, ih]; rfl
  have htail : ∀ a ∈ (aggregatedRows distinct (e :: es)).tail, entryInRange a :=
    fun a ha => hrange a
      ((mem_aggregatedRows distinct _ a).1 (List.mem_of_mem_tail ha))
  have h := evaluateOnChildOperand_AGG_OP (E := Id)
    (minMaxLambdaForAllTypes compareIds comparison) ActualValueGetter id noop id
    distinct (entryToId e) (es.map entryToId)
  rw [← List.map_cons, hrows, hgetter, ← List.map_tail] at h
  rw [h]
  simp only [id, noop, ActualValueGetter]
  rw [foldl_minMaxLambdaForAllTypes compareIds comparison hcompare _ e
    (hrange e (List.mem_cons_self _ _)) htail]

/-- C9: for a non-empty column of `Id`s that are undefined or integers (of
60 bits, compared by `compareIds` as integers): if the column has an integer,
MIN returns the smallest and MAX the largest integer of the column, wherever
the undefined entries stand, and neither result is undefined; if all entries
are undefined, MIN and MAX are undefined. -/
theorem minMax_intColumn (compareIds : Id → Id → Comparison → Bool)
    (distinct : Bool) (col : List (Option Int))
    (hcompare : ∀ (comparison : Comparison) (i j : Int),
      -2 ^ 59 ≤ i ∧ i < 2 ^ 59 → -2 ^ 59 ≤ j ∧ j < 2 ^ 59 →
      compareIds (Id.makeFromInt i) (Id.makeFromInt j) comparison
        = comparison.holds i j)
    (hrange : ∀ i : Int, some i ∈ col → -2 ^ 59 ≤ i ∧ i < 2 ^ 59)
    (hne : col ≠ []) :
    ((∃ i : Int, some i ∈ col) →
        ∃ lo hi : Int, some lo ∈ col ∧ some hi ∈ col
          ∧ (∀ j : Int, some j ∈ col → lo ≤ j ∧ j ≤ hi)
          ∧ MinExpression.evaluateOnChildOperand compareIds distinct
              (col.map entryToId) = .ok (Id.makeFromInt lo)
          ∧ MaxExpression.evaluateOnChildOperand compareIds distinct
              (col.map entryToId) = .ok (Id.makeFromInt hi)
          ∧ Id.makeFromInt lo ≠ Id.makeUndefined
          ∧ Id.makeFromInt hi ≠ Id.makeUndefined)
      ∧ ((∀ e ∈ col, e = none) →
          MinExpression.evaluateOnChildOperand compareIds distinct
              (col.map entryToId) = .ok Id.makeUndefined
            ∧ MaxExpression.evaluateOnChildOperand compareIds distinct
              (col.map entryToId) = .ok Id.makeUndefined) := by
  cases col with
  | nil => exact absurd rfl hne
  | cons e es =>
    have hrange1 : ∀ a ∈ e :: es, entryInRange a := by
      intro a ha
      cases a with
      | none => exact trivial
      | some i => exact hrange i ha
    have hmin := evaluateOnChildOperand_minMax compareIds .LT (hcompare .LT)
      distinct e es hrange1
    have hmax := evaluateOnChildOperand_minMax compareIds .GT (hcompare .GT)
      distinct e es hrange1
    have hcons := aggregatedRows_cons distinct e es
    have hmemRows : ∀ a : Option Int,
        a ∈ e :: (aggregatedRows distinct (e :: es)).tail ↔ a ∈ e :: es := by
      intro a
      rw [← hcons]
      exact mem_aggregatedRows distinct _ a
    obtain ⟨hlomem, hlobest⟩ :=
      foldl_pickEntry .LT (aggregatedRows distinct (e :: es)).tail e
    obtain ⟨himem, hibest⟩ :=
      foldl_pickEntry .GT (aggregatedRows distinct (e :: es)).tail e
    unfold MinExpression.evaluateOnChildOperand MaxExpression.evaluateOnChildOperand
      minLambdaForAllTypes maxLambdaForAllTypes
    rw [hmin, hmax]
    refine ⟨?_, ?_⟩
    · rintro ⟨i, hi⟩
      obtain ⟨lo, hlo, _⟩ := hlobest i ((hmemRows _).2 hi)
      obtain ⟨hi1, hhi, _⟩ := hibest i ((hmemRows _).2 hi)
      refine ⟨lo, hi1, ?_, ?_, ?_, ?_, ?_, Id.makeFromInt_ne_makeUndefined lo,
        Id.makeFromInt_ne_makeUndefined hi1⟩
      · rw [← hlo]; exact (hmemRows _).1 hlomem
      · rw [← hhi]; exact (hmemRows _).1 himem
      · intro j hj
        obtain ⟨m, hm, hjm⟩ := hlobest j ((hmemRows _).2 hj)
        obtain ⟨n, hn, hjn⟩ := hibest j ((hmemRows _).2 hj)
        rw [hlo] at hm
        rw [hhi] at hn
        simp only [Option.some.injEq] at hm hn
        simp only [Comparison.holds, decide_eq_false_iff_not] at hjm hjn
        omega
      · rw [hlo]; rfl
      · rw [hhi]; rfl
    · intro hall
      have hlo := hall _ ((hmemRows _).1 hlomem)
      have hhi := hall _ ((hmemRows _).1 himem)
      rw [hlo, hhi]
      exact ⟨rfl, rfl⟩

/-- C10: the undefined `Id` is a two-sided identity of the functions of MIN
and MAX on `Id`s: its datatype is `Undefined`, so the bits of the two
arguments are combined by bitwise or, and the bits of the undefined `Id` are
all zero. -/
theorem minMaxLambda_undefined_identity
    (compareIds : Id → Id → Comparison → Bool) (a : Id) :
    minLambdaForAllTypes compareIds a Id.makeUndefined = a
      ∧ minLambdaForAllTypes compareIds Id.makeUndefined a = a
      ∧ maxLambdaForAllTypes compareIds a Id.makeUndefined = a
      ∧ maxLambdaForAllTypes compareIds Id.makeUndefined a = a
      ∧ Id.makeUndefined.getBits = 0
      ∧ Id.fromBits (a.getBits ||| 0) = a :=
  ⟨minMaxLambdaForAllTypes_makeUndefined_right compareIds .LT a,
    minMaxLambdaForAllTypes_makeUndefined_left compareIds .LT a,
    minMaxLambdaForAllTypes_makeUndefined_right compareIds .GT a,
    minMaxLambdaForAllTypes_makeUndefined_left compareIds .GT a,
    rfl, by simp [Id.fromBits, Id.getBits]⟩

/-- A witness of C9: the column `[Undefined, Int(3), Int(1)]` has the
minimum `Int(1)` and the maximum `Int(3)`. -/
theorem minMax_intColumn_witness :
    (∀ i : Int, some i ∈ [none, some 3, some 1] → -2 ^ 59 ≤ i ∧ i < 2 ^ 59)
      ∧ [none, some (3 : Int), some 1] ≠ []
      ∧ (∃ i : Int, some i ∈ [none, some 3, some 1])
      ∧ (∃ lo hi : Int, some lo ∈ [none, some 3, some 1]
          ∧ some hi ∈ [none, some 3, some 1]
          ∧ (∀ j : Int, some j ∈ [none, some 3, some 1] → lo ≤ j ∧ j ≤ hi)
          ∧ MinExpression.evaluateOnChildOperand compareIdsByType false
              ([none, some 3, some 1].map entryToId) = .ok (Id.makeFromInt lo)
          ∧ MaxExpression.evaluateOnChildOperand compareIdsByType false
              ([none, some 3, some 1].map entryToId) = .ok (Id.makeFromInt hi)
          ∧ Id.makeFromInt lo ≠ Id.makeUndefined
          ∧ Id.makeFromInt hi ≠ Id.makeUndefined)
      ∧ MinExpression.evaluateOnChildOperand compareIdsByType false
          [Id.makeUndefined, Id.makeFromInt 3, Id.makeFromInt 1]
        = .ok (Id.makeFromInt 1)
      ∧ MaxExpression.evaluateOnChildOperand compareIdsByType false
          [Id.makeUndefined, Id.makeFromInt 3, Id.makeFromInt 1]
        = .ok (Id.makeFromInt 3) :=
  have hrange : ∀ i : Int, some i ∈ [none, some 3, some 1] →
      -2 ^ 59 ≤ i ∧ i < 2 ^ 59 := by
    intro i hi
    simp only [List.mem_cons, reduceCtorEq, Option.some.injEq, List.mem_singleton,
      false_or, List.not_mem_nil, or_false] at hi
    omega
  ⟨hrange, by simp, ⟨3, by simp⟩,
    (minMax_intColumn compareIdsByType false [none, some 3, some 1]
      compareIdsByType_makeFromInt hrange (by simp)).1 ⟨3, by simp⟩,
    by decide, by decide⟩

end sparqlExpression

/-! ## Theorems on the variable of a COUNT and on specialised functions -/

namespace sparqlExpression

/-- C11: `getVariableForCount` returns the variable `v` of the child together
with the flag `_distinct` of the COUNT when the child is a reference to the
variable `v`, and nothing for every child that is no reference to a
variable. -/
theorem getVariableForCount_spec (distinct : Bool) :
    (∀ v : Variable,
        CountExpression.getVariableForCount SparqlExpression.getVariableOrNullopt
            ⟨distinct, SparqlExpression.variableExpression v⟩
          = some ⟨v, distinct⟩)
      ∧ (∀ child : SparqlExpression,
          (∀ v, child ≠ SparqlExpression.variableExpression v) →
          CountExpression.getVariableForCount SparqlExpression.getVariableOrNullopt
            ⟨distinct, child⟩ = none)
      ∧ (∀ (Child : Type) (getVariableOrNullopt : Child → Option Variable)
          (child : Child),
          CountExpression.getVariableForCount getVariableOrNullopt ⟨distinct, child⟩
            = (getVariableOrNullopt child).map (fun v => ⟨v, distinct⟩)) := by
  refine ⟨fun _ => rfl, ?_, ?_⟩
  · intro child hchild
    cases child with
    | variableExpression v => exact absurd rfl (hchild v)
    | otherExpression key children => rfl
  · intro Child g child
    unfold CountExpression.getVariableForCount
    cases g child <;> rfl

/-- A witness of C11: the COUNT of a sum of two variables has no variable,
and the COUNT with DISTINCT of the variable `?x` has the variable `?x` and is
distinct. -/
theorem getVariableForCount_spec_witness :
    (∀ v, SparqlExpression.otherExpression "+"
        [.variableExpression ⟨"?x"⟩, .variableExpression ⟨"?y"⟩]
        ≠ SparqlExpression.variableExpression v)
      ∧ CountExpression.getVariableForCount SparqlExpression.getVariableOrNullopt
          ⟨true, SparqlExpression.otherExpression "+"
            [.variableExpression ⟨"?x"⟩, .variableExpression ⟨"?y"⟩]⟩
        = none
      ∧ CountExpression.getVariableForCount SparqlExpression.getVariableOrNullopt
          ⟨true, SparqlExpression.variableExpression ⟨"?x"⟩⟩
        = some ⟨⟨"?x"⟩, true⟩ :=
  ⟨(fun _ h => nomatch h),
    (getVariableForCount_spec true).2.1 _ (fun _ h => nomatch h),
    (getVariableForCount_spec true).1 ⟨"?x"⟩⟩

/-- C12: when a specialised function is possible for the operand, the
evaluation returns the result of `evaluateOnSpecializedFunctionsIfPossible`
(the contract check fails if there is none), whatever the function, the
value getter, the final operation, the conversion of the result and the flag
`distinct` are. -/
theorem evaluateOnChildOperand_specialized {α V R E : Type} [DecidableEq α]
    (op : AggregateOperation α V R E) (operand : List α)
    (hpossible : op.isAnySpecializedFunctionPossible operand = true) :
    (∀ (G : R → Nat → R) (wrap : R → E) (distinct : Bool) (r : E),
        op.evaluateOnSpecializedFunctionsIfPossible operand = some r →
        evaluateOnChildOperand op G wrap distinct operand = .ok r)
      ∧ (∀ (G : R → Nat → R) (wrap : R → E) (distinct : Bool),
        op.evaluateOnSpecializedFunctionsIfPossible operand = none →
        evaluateOnChildOperand op G wrap distinct operand
          = .error .contractCheckFailed)
      ∧ (∀ (F : R → V → R) (g : α → V) (conv : V → R) (G G1 : R → Nat → R)
          (wrap wrap1 : R → E) (distinct distinct1 : Bool),
          evaluateOnChildOperand op G wrap distinct operand
            = evaluateOnChildOperand
                ⟨F, g, conv, op.isAnySpecializedFunctionPossible,
                  op.evaluateOnSpecializedFunctionsIfPossible⟩
                G1 wrap1 distinct1 operand) := by
  refine ⟨?_, ?_, ?_⟩
  · intro G wrap distinct r hr
    simp [evaluateOnChildOperand, hpossible, hr]
  · intro G wrap distinct hr
    simp [evaluateOnChildOperand, hpossible, hr]
  · intro F g conv G G1 wrap wrap1 distinct distinct1
    simp [evaluateOnChildOperand, hpossible]

/-- A witness of C12: an operation of COUNT with a specialised function
that applies to the operand without rows and returns `7`. -/
theorem evaluateOnChildOperand_specialized_witness :
    countWithSpecializedFunction.isAnySpecializedFunctionPossible [] = true
      ∧ evaluateOnChildOperand countWithSpecializedFunction noop (fun r => r)
          true [] = .ok 7
      ∧ evaluateOnChildOperand countWithSpecializedFunction noop (fun r => r)
          false [] = .ok 7 :=
  ⟨rfl,
    (evaluateOnChildOperand_specialized countWithSpecializedFunction [] rfl).1
      noop (fun r => r) true 7 rfl,
    (evaluateOnChildOperand_specialized countWithSpecializedFunction [] rfl).1
      noop (fun r => r) false 7 rfl⟩

end sparqlExpression

/-! ## Theorems on the cache of query results -/

/-- C13: the size of a `CacheValue` built by its constructor from a result
table with `r` rows and `c` columns is `r * c` as `size_t`; the pointer to the
result table is not null, so the branch that returns `0` is not taken. -/
theorem CacheValue.size_new {RuntimeInformation : Type} (r c : Nat)
    (runtimeInfo : RuntimeInformation) :
    (CacheValue.new ⟨r, c⟩ runtimeInfo).size = (r * c) % 2 ^ 64
      ∧ (CacheValue.new ⟨r, c⟩ runtimeInfo)._resultTable = some ⟨r, c⟩
      ∧ (CacheValue.new ⟨r, c⟩ runtimeInfo)._resultTable ≠ none := by
  refine ⟨?_, rfl, by simp [CacheValue.new]⟩
  simp [CacheValue.size, CacheValue.new, ResultTable.size, ResultTable.width,
    Nat.mul_mod]

/-- C14: after `clearAll` the cache holds no entry, pinned or not, the table
of the pinned sizes is empty, and `getPinnedSize` returns nothing for every
key. -/
theorem QueryResultCache.getPinnedSize_clearAll {RuntimeInformation : Type}
    (cache : QueryResultCache RuntimeInformation) :
    cache.clearAll.base.pinnedEntries = []
      ∧ cache.clearAll.base.nonPinnedEntries = []
      ∧ cache.clearAll._pinnedSizes = []
      ∧ ∀ key : String, cache.clearAll.getPinnedSize key = none :=
  ⟨rfl, rfl, rfl, fun _ => rfl⟩

/-! ## Theorems on the query planner -/

theorem mem_insertIfVariable (vars : Finset Variable) (c : TripleComponent)
    (v : Variable) : v ∈ insertIfVariable vars c ↔ v ∈ vars ∨ c = .var v := by
  cases c <;> simp [insertIfVariable, eq_comm, or_comm]

theorem mem_insertIfVariablePath (vars : Finset Variable) (p : PropertyPath)
    (v : Variable) :
    v ∈ insertIfVariablePath vars p
      ↔ v ∈ vars ∨ (isVariablePath p = true ∧ v = ⟨p._iri⟩) := by
  unfold insertIfVariablePath
  by_cases h : isVariablePath p = true
  · simp [h, or_comm]
  · simp [h]

theorem mem_insertVariablesOfTriple (vars : Finset Variable) (t : SparqlTriple)
    (v : Variable) :
    v ∈ insertVariablesOfTriple vars t ↔ v ∈ vars ∨ variableOccursIn v t := by
  simp only [insertVariablesOfTriple, mem_insertIfVariable, mem_insertIfVariablePath,
    variableOccursIn, or_assoc]

theorem mem_foldl_insertVariablesOfTriple (trips : List SparqlTriple) (v : Variable) :
    ∀ vars : Finset Variable,
      v ∈ trips.foldl insertVariablesOfTriple vars
        ↔ v ∈ vars ∨ ∃ t ∈ trips, variableOccursIn v t := by
  induction trips with
  | nil => intro vars; simp
  | cons t ts ih =>
    intro vars
    rw [List.foldl_cons, ih, mem_insertVariablesOfTriple]
    simp only [List.mem_cons, exists_eq_or_imp, or_assoc]

/-- C17: the node of a text clique, built from the context variable `cvar`,
the words and the triples of the clique, has `cvar` as its context variable
and the words, unchanged, as its word part, and its variables are `cvar` and
every variable that occurs as subject, predicate or object of a triple of the
clique. -/
theorem TripleGraph.Node.ofTextClique_spec (textMatchPredicate : String)
    (id : Nat) (cvar : Variable) (words : List String)
    (trips : List SparqlTriple) :
    (Node.ofTextClique textMatchPredicate id cvar words trips)._cvar = some cvar
      ∧ (Node.ofTextClique textMatchPredicate id cvar words trips)._wordPart
          = some words
      ∧ (Node.ofTextClique textMatchPredicate id cvar words trips)._id = id
      ∧ ∀ v : Variable,
          v ∈ (Node.ofTextClique textMatchPredicate id cvar words trips)._variables
            ↔ v = cvar ∨ ∃ t ∈ trips, variableOccursIn v t := by
  refine ⟨rfl, rfl, rfl, ?_⟩
  intro v
  simp [Node.ofTextClique, mem_foldl_insertVariablesOfTriple]

theorem TripleGraph.nodesOfTriples_getElem (ts : List SparqlTriple) :
    ∀ (start i : Nat),
      (TripleGraph.nodesOfTriples start ts)[i]?
        = ts[i]?.map (TripleGraph.Node.ofTriple (start + i)) := by
  induction ts with
  | nil => intro start i; simp [TripleGraph.nodesOfTriples]
  | cons t ts ih =>
    intro start i
    cases i with
    | zero => simp [TripleGraph.nodesOfTriples]
    | succ i =>
      have hidx : start + 1 + i = start + (i + 1) := by omega
      simp only [TripleGraph.nodesOfTriples, List.getElem?_cons_succ, ih, hidx]

theorem TripleGraph.nodesOfTriples_length (ts : List SparqlTriple) :
    ∀ start : Nat, (TripleGraph.nodesOfTriples start ts).length = ts.length := by
  induction ts with
  | nil => intro start; rfl
  | cons t ts ih => intro start; simp [TripleGraph.nodesOfTriples, ih]

theorem TripleGraph.mem_nodesOfTriples (ts : List SparqlTriple)
    (node : TripleGraph.Node) :
    node ∈ TripleGraph.nodesOfTriples 0 ts
      ↔ ∃ j t, ts[j]? = some t ∧ node = TripleGraph.Node.ofTriple j t := by
  rw [List.mem_iff_getElem?]
  constructor
  · rintro ⟨j, hj⟩
    rw [TripleGraph.nodesOfTriples_getElem] at hj
    cases ht : ts[j]? with
    | none => simp [ht] at hj
    | some t =>
      simp only [ht, Option.map_some', Option.some.injEq, Nat.zero_add] at hj
      exact ⟨j, t, ht, hj.symm⟩
  · rintro ⟨j, t, ht, hnode⟩
    refine ⟨j, ?_⟩
    rw [TripleGraph.nodesOfTriples_getElem, ht, hnode]
    simp

/-- The edges of the graph of a pattern. -/
theorem createTripleGraph_adjacent (ts : List SparqlTriple) (i j : Nat) :
    (createTripleGraph ts).adjacent i j
      ↔ i ≠ j ∧ ∃ ti tj, ts[i]? = some ti ∧ ts[j]? = some tj
          ∧ ((TripleGraph.Node.ofTriple i ti)._variables
              ∩ (TripleGraph.Node.ofTriple j tj)._variables).Nonempty := by
  simp only [TripleGraph.adjacent, createTripleGraph, List.getElem?_map,
    TripleGraph.nodesOfTriples_getElem, Nat.zero_add]
  constructor
  · rintro ⟨adj, hadj, hj⟩
    cases hti : ts[i]? with
    | none => simp [hti] at hadj
    | some ti =>
      simp only [hti, Option.map_some', Option.some.injEq] at hadj
      rw [← hadj, List.mem_map] at hj
      obtain ⟨other, hother, hid⟩ := hj
      rw [List.mem_filter, TripleGraph.mem_nodesOfTriples] at hother
      obtain ⟨⟨k, tk, htk, hk⟩, hshare⟩ := hother
      have hkj : k = j := by rw [← hid, hk]; rfl
      subst hkj
      subst hk
      simp only [TripleGraph.shareVariable, Bool.and_eq_true, decide_eq_true_eq] at hshare
      exact ⟨hshare.1, ti, tk, rfl, htk, hshare.2⟩
  · rintro ⟨hij, ti, tj, hti, htj, hshare⟩
    refine ⟨_, by rw [hti]; rfl, ?_⟩
    rw [List.mem_map]
    refine ⟨TripleGraph.Node.ofTriple j tj, ?_, rfl⟩
    rw [List.mem_filter, TripleGraph.mem_nodesOfTriples]
    refine ⟨⟨j, tj, htj, rfl⟩, ?_⟩
    simp only [TripleGraph.shareVariable, Bool.and_eq_true, decide_eq_true_eq]
    exact ⟨hij, hshare⟩

/-- C16: the graph of a basic graph pattern has exactly one node per
triple, the node of the triple `i` with the id `i`; two nodes are adjacent
if and only if they are different and their variable sets have a common
variable; adjacency is symmetric and without loops. -/
theorem createTripleGraph_spec (ts : List SparqlTriple) :
    (createTripleGraph ts)._nodeStorage.length = ts.length
      ∧ (createTripleGraph ts)._adjLists.length = ts.length
      ∧ (∀ i : Nat, (createTripleGraph ts)._nodeStorage[i]?
          = ts[i]?.map (TripleGraph.Node.ofTriple i))
      ∧ (∀ i j : Nat, (createTripleGraph ts).adjacent i j
          ↔ i ≠ j ∧ ∃ ti tj, ts[i]? = some ti ∧ ts[j]? = some tj
              ∧ ∃ v, v ∈ (TripleGraph.Node.ofTriple i ti)._variables
                  ∧ v ∈ (TripleGraph.Node.ofTriple j tj)._variables)
      ∧ (∀ i j : Nat, (createTripleGraph ts).adjacent i j →
          (createTripleGraph ts).adjacent j i)
      ∧ (∀ i : Nat, ¬ (createTripleGraph ts).adjacent i i) := by
  refine ⟨?_, ?_, ?_, ?_, ?_, ?_⟩
  · simp [createTripleGraph, TripleGraph.nodesOfTriples_length]
  · simp [createTripleGraph, TripleGraph.nodesOfTriples_length]
  · intro i
    simp [createTripleGraph, TripleGraph.nodesOfTriples_getElem]
  · intro i j
    rw [createTripleGraph_adjacent]
    simp only [Finset.Nonempty, Finset.mem_inter]
  · intro i j h
    rw [createTripleGraph_adjacent] at h ⊢
    obtain ⟨hij, ti, tj, hti, htj, hshare⟩ := h
    exact ⟨fun h => hij h.symm, tj, ti, htj, hti, by rwa [Finset.inter_comm]⟩
  · intro i h
    rw [createTripleGraph_adjacent] at h
    exact h.1 rfl

/-- The search for the first smallest element, for a comparison that
compares the values of a function `f` into a linear order: either the
smallest element so far stays, and no element of the list is below it, or the
result is the first element of the list that is below all others. -/
theorem minElementFrom_spec {α L : Type} [LinearOrder L] (less : α → α → Bool)
    (f : α → L) (hless : ∀ a b, less a b = decide (f a < f b)) (xs : List α) :
    ∀ (smallest : α) (smallestIndex index : Nat),
      (minElementFrom less smallest smallestIndex index xs = smallestIndex
          ∧ ∀ y ∈ xs, f smallest ≤ f y)
        ∨ ∃ k x, xs[k]? = some x
            ∧ minElementFrom less smallest smallestIndex index xs = index + k
            ∧ f x < f smallest
            ∧ (∀ (k1 : Nat) (y : α), k1 < k → xs[k1]? = some y → f x < f y)
            ∧ ∀ y ∈ xs, f x ≤ f y := by
  induction xs with
  | nil => intro smallest si index; exact Or.inl ⟨rfl, by simp⟩
  | cons x xs ih =>
    intro smallest si index
    by_cases hx : f x < f smallest
    · have hstep : minElementFrom less smallest si index (x :: xs)
          = minElementFrom less x index (index + 1) xs := by
        simp [minElementFrom, hless, hx]
      rw [hstep]
      right
      rcases ih x index (index + 1) with ⟨hres, hall⟩ | ⟨k, z, hk, hres, hz, hfirst, hall⟩
      · refine ⟨0, x, by simp, by rw [hres]; rfl, hx, ?_, ?_⟩
        · intro k1 y hk1; omega
        · intro y hy
          rcases List.mem_cons.1 hy with h | h
          · rw [h]
          · exact hall y h
      · refine ⟨k + 1, z, by simpa using hk, by rw [hres]; omega, lt_trans hz hx, ?_, ?_⟩
        · intro k1 y hk1 hy
          cases k1 with
          | zero =>
            simp only [List.getElem?_cons_zero, Option.some.injEq] at hy
            rw [← hy]; exact hz
          | succ k1 =>
            simp only [List.getElem?_cons_succ] at hy
            exact hfirst k1 y (by omega) hy
        · intro y hy
          rcases List.mem_cons.1 hy with h | h
          · rw [h]; exact le_of_lt hz
          · exact hall y h
    · have hstep : minElementFrom less smallest si index (x :: xs)
          = minElementFrom less smallest si (index + 1) xs := by
        simp [minElementFrom, hless, hx]
      rw [hstep]
      have hle : f smallest ≤ f x := not_lt.1 hx
      rcases ih smallest si (index + 1) with ⟨hres, hall⟩ | ⟨k, z, hk, hres, hz, hfirst, hall⟩
      · left
        refine ⟨hres, ?_⟩
        intro y hy
        rcases List.mem_cons.1 hy with h | h
        · rw [h]; exact hle
        · exact hall y h
      · right
        refine ⟨k + 1, z, by simpa using hk, by rw [hres]; omega, hz, ?_, ?_⟩
        · intro k1 y hk1 hy
          cases k1 with
          | zero =>
            simp only [List.getElem?_cons_zero, Option.some.injEq] at hy
            rw [← hy]; exact lt_of_lt_of_le hz hle
          | succ k1 =>
            simp only [List.getElem?_cons_succ] at hy
            exact hfirst k1 y (by omega) hy
        · intro y hy
          rcases List.mem_cons.1 hy with h | h
          · rw [h]; exact le_of_lt (lt_of_lt_of_le hz hle)
          · exact hall y h

/-- The first smallest element of a non-empty list: its index is valid, no
element is below it, and it is below all elements before it. -/
theorem minElementFrom_first {α L : Type} [LinearOrder L] (less : α → α → Bool)
    (f : α → L) (hless : ∀ a b, less a b = decide (f a < f b))
    (x : α) (xs : List α) :
    ∃ best, (x :: xs)[minElementFrom less x 0 1 xs]? = some best
      ∧ (∀ (j : Nat) (y : α), (x :: xs)[j]? = some y → f best ≤ f y)
      ∧ ∀ (j : Nat) (y : α), j < minElementFrom less x 0 1 xs → (x :: xs)[j]? = some y →
          f best < f y := by
  rcases minElementFrom_spec less f hless xs x 0 1 with
    ⟨hres, hall⟩ | ⟨k, z, hk, hres, hz, hfirst, hall⟩
  · refine ⟨x, by rw [hres]; simp, ?_, ?_⟩
    · intro j y hy
      cases j with
      | zero =>
        simp only [List.getElem?_cons_zero, Option.some.injEq] at hy
        rw [hy]
      | succ j =>
        simp only [List.getElem?_cons_succ] at hy
        exact hall y (List.getElem?_mem hy)
    · intro j y hj
      rw [hres] at hj
      omega
  · refine ⟨z, ?_, ?_, ?_⟩
    · rw [hres, Nat.add_comm, List.getElem?_cons_succ]
      exact hk
    · intro j y hy
      cases j with
      | zero =>
        simp only [List.getElem?_cons_zero, Option.some.injEq] at hy
        rw [← hy]; exact le_of_lt hz
      | succ j =>
        simp only [List.getElem?_cons_succ] at hy
        exact hall y (List.getElem?_mem hy)
    · intro j y hj hy
      rw [hres] at hj
      cases j with
      | zero =>
        simp only [List.getElem?_cons_zero, Option.some.injEq] at hy
        rw [← hy]; exact hz
      | succ j =>
        simp only [List.getElem?_cons_succ] at hy
        exact hfirst j y (by omega) hy

theorem cheaperPlan_false (a b : SubtreePlan) :
    cheaperPlan false a b = decide (a.costEstimate < b.costEstimate) := by
  simp [cheaperPlan]

theorem cheaperPlan_true (a b : SubtreePlan) :
    cheaperPlan true a b
      = decide (toLex (a.costEstimate, a.cacheKey)
          < toLex (b.costEstimate, b.cacheKey)) := by
  by_cases h : a.costEstimate = b.costEstimate
  · simp [cheaperPlan, Prod.Lex.lt_iff, h]
  · simp [cheaperPlan, Prod.Lex.lt_iff, h]

/-- C18: for a non-empty row of plans `findCheapestExecutionTree` returns a
valid index `i` of a plan whose cost estimate is at most the cost estimate
of every plan of the row. Outside of the test mode `i` is the first index
of minimum cost; in the test mode the plan `i` has the smallest cache key
among the plans of minimum cost. -/
theorem findCheapestExecutionTree_spec {QueryExecutionContext : Type}
    (planner : QueryPlanner QueryExecutionContext) (row : List SubtreePlan)
    (hrow : row ≠ []) :
    ∃ (i : Nat) (best : SubtreePlan), planner.findCheapestExecutionTree row = some i
      ∧ i < row.length ∧ row[i]? = some best
      ∧ (∀ (j : Nat) (plan : SubtreePlan), row[j]? = some plan → best.costEstimate ≤ plan.costEstimate)
      ∧ (planner.isInTestMode = false → ∀ (j : Nat) (plan : SubtreePlan), j < i → row[j]? = some plan →
          best.costEstimate < plan.costEstimate)
      ∧ (planner.isInTestMode = true → ∀ (j : Nat) (plan : SubtreePlan), row[j]? = some plan →
          plan.costEstimate = best.costEstimate →
          best.cacheKey ≤ plan.cacheKey) := by
  cases row with
  | nil => exact absurd rfl hrow
  | cons p ps =>
    cases hmode : planner.isInTestMode with
    | false =>
      obtain ⟨best, hbest, hmin, hfirst⟩ :=
        minElementFrom_first (cheaperPlan false) (fun plan => plan.costEstimate)
          cheaperPlan_false p ps
      refine ⟨_, best, by simp only [QueryPlanner.findCheapestExecutionTree, hmode],
        ?_, hbest, hmin, fun _ => hfirst, fun h => by simp at h⟩
      by_contra hlen
      rw [List.getElem?_eq_none (by omega)] at hbest
      simp at hbest
    | true =>
      obtain ⟨best, hbest, hmin, _⟩ :=
        minElementFrom_first (cheaperPlan true)
          (fun plan => toLex (plan.costEstimate, plan.cacheKey))
          cheaperPlan_true p ps
      refine ⟨_, best, by simp only [QueryPlanner.findCheapestExecutionTree, hmode],
        ?_, hbest, ?_, fun h => by simp at h, ?_⟩
      · by_contra hlen
        rw [List.getElem?_eq_none (by omega)] at hbest
        simp at hbest
      · intro j plan hplan
        have h := hmin j plan hplan
        rw [Prod.Lex.le_iff] at h
        rcases h with h | h
        · exact le_of_lt h
        · exact le_of_eq h.1
      · intro _ j plan hplan hcost
        have h := hmin j plan hplan
        rw [Prod.Lex.le_iff] at h
        rcases h with h | h
        · simp only at h
          omega
        · exact h.2

/-- A witness of C18: of three plans of cost `5`, `3`, `3` with the cache
keys `a`, `c`, `b` the planner without an execution context (test mode)
chooses the index `2`, and a planner with an execution context the
index `1`. -/
theorem findCheapestExecutionTree_spec_witness :
    ([⟨5, "a"⟩, ⟨3, "c"⟩, ⟨3, "b"⟩] : List SubtreePlan) ≠ []
      ∧ (∃ (i : Nat) (best : SubtreePlan),
          (⟨none, 0, false⟩ : QueryPlanner Unit).findCheapestExecutionTree
              [⟨5, "a"⟩, ⟨3, "c"⟩, ⟨3, "b"⟩] = some i
            ∧ i < ([⟨5, "a"⟩, ⟨3, "c"⟩, ⟨3, "b"⟩] : List SubtreePlan).length
            ∧ ([⟨5, "a"⟩, ⟨3, "c"⟩, ⟨3, "b"⟩] : List SubtreePlan)[i]? = some best
            ∧ (∀ (j : Nat) (plan : SubtreePlan), ([⟨5, "a"⟩, ⟨3, "c"⟩, ⟨3, "b"⟩] : List SubtreePlan)[j]?
                = some plan → best.costEstimate ≤ plan.costEstimate)
            ∧ ((⟨none, 0, false⟩ : QueryPlanner Unit).isInTestMode = false →
                ∀ (j : Nat) (plan : SubtreePlan), j < i →
                  ([⟨5, "a"⟩, ⟨3, "c"⟩, ⟨3, "b"⟩] : List SubtreePlan)[j]? = some plan →
                  best.costEstimate < plan.costEstimate)
            ∧ ((⟨none, 0, false⟩ : QueryPlanner Unit).isInTestMode = true →
                ∀ (j : Nat) (plan : SubtreePlan),
                  ([⟨5, "a"⟩, ⟨3, "c"⟩, ⟨3, "b"⟩] : List SubtreePlan)[j]? = some plan →
                  plan.costEstimate = best.costEstimate →
                  best.cacheKey ≤ plan.cacheKey))
      ∧ (⟨none, 0, false⟩ : QueryPlanner Unit).findCheapestExecutionTree
          [⟨5, "a"⟩, ⟨3, "c"⟩, ⟨3, "b"⟩] = some 2
      ∧ (⟨some (), 0, false⟩ : QueryPlanner Unit).findCheapestExecutionTree
          [⟨5, "a"⟩, ⟨3, "c"⟩, ⟨3, "b"⟩] = some 1 :=
  ⟨by simp,
    findCheapestExecutionTree_spec (⟨none, 0, false⟩ : QueryPlanner Unit)
      [⟨5, "a"⟩, ⟨3, "c"⟩, ⟨3, "b"⟩] (by simp),
    by
      simp only [QueryPlanner.findCheapestExecutionTree, QueryPlanner.isInTestMode,
        minElementFrom, cheaperPlan, String.lt_iff_toList_lt]
      decide,
    by decide⟩

/-! ## Theorems on configuration options -/

namespace ad_utility

theorem Json.getEntries_isSome {D α : Type} (getEntry : Json D → Option α)
    (entries : List (Json D))
    (h : ∀ entry ∈ entries, (getEntry entry).isSome = true) :
    (Json.getEntries getEntry entries).isSome = true := by
  induction entries with
  | nil => rfl
  | cons entry entries ih =>
    have h1 := h entry (List.mem_cons_self _ _)
    have h2 := ih (fun e he => h e (List.mem_cons_of_mem _ he))
    rw [Option.isSome_iff_exists] at h1 h2
    obtain ⟨v, hv⟩ := h1
    obtain ⟨vs, hvs⟩ := h2
    simp [Json.getEntries, hv, hvs]

/-- A JSON value that represents a type can be converted to the type. -/
theorem Json.get_isSome {D : Type} (roundToFloat : D → D) (t : ValueType)
    (j : Json D) (h : isValueTypeSubType t j = true) :
    (j.get roundToFloat t).isSome = true := by
  cases t with
  | base b =>
    cases b <;> cases j <;>
      simp_all [isValueTypeSubType, isValueTypeSubTypeBase, Json.get, Json.is_boolean,
        Json.is_string, Json.is_number_integer, Json.is_number_unsigned,
        Json.is_number_float, Json.getBool, Json.getString, Json.getInt,
        Json.getSizeT, Json.getFloat]
  | vector inner =>
    simp only [isValueTypeSubType, Bool.and_eq_true, List.all_eq_true] at h
    obtain ⟨harray, hall⟩ := h
    cases inner
    · simp only [Json.get, harray, if_true, Option.isSome_map']
      apply Json.getEntries_isSome
      intro e he
      have := hall e he
      cases e <;> simp_all [isValueTypeSubTypeBase, Json.is_boolean, Json.getBool]
    · simp only [Json.get, harray, if_true, Option.isSome_map']
      apply Json.getEntries_isSome
      intro e he
      have := hall e he
      cases e <;> simp_all [isValueTypeSubTypeBase, Json.is_string, Json.getString]
    · simp only [Json.get, harray, if_true, Option.isSome_map']
      apply Json.getEntries_isSome
      intro e he
      have := hall e he
      cases e <;> simp_all [isValueTypeSubTypeBase, Json.is_number_integer, Json.getInt]
    · simp only [Json.get, harray, if_true, Option.isSome_map']
      apply Json.getEntries_isSome
      intro e he
      have := hall e he
      cases e <;> simp_all [isValueTypeSubTypeBase, Json.is_number_unsigned, Json.getSizeT]
    · simp only [Json.get, harray, if_true, Option.isSome_map']
      apply Json.getEntries_isSome
      intro e he
      have := hall e he
      cases e <;> simp_all [isValueTypeSubTypeBase, Json.is_number_float, Json.getFloat]

/-- C19: `setValueWithJson` raises `ConfigOptionSetWrongJsonTypeException` if
and only if the JSON value does not represent the type of the option, and
succeeds for every JSON value that represents it. A JSON value represents
`bool` if it is a boolean, `string` if it is a string, `int` if it is an
integer (signed or unsigned), `size_t` if it is an unsigned integer, `float`
if it is a floating point number, and a vector if it is an array all of
whose entries represent the inner type. -/
theorem ConfigOption.setValueWithJson_exception_iff {D : Type}
    (roundToFloat : D → D) (o : ConfigOption D) (j : Json D) :
    ((∃ identifier typeOfOption typeOfJson,
        o.setValueWithJson roundToFloat j
          = .error (.ConfigOptionSetWrongJsonTypeException identifier typeOfOption
              typeOfJson))
        ↔ isValueTypeSubType o.type j = false)
      ∧ (isValueTypeSubType o.type j = true →
          ∃ value, j.get roundToFloat o.type = some value
            ∧ o.setValueWithJson roundToFloat j
              = .ok { o with pointee := value, configurationOptionWasSet_ := true })
      ∧ (isValueTypeSubType (.base .bool) j = true ↔ ∃ b, j = .boolean b)
      ∧ (isValueTypeSubType (.base .string) j = true ↔ ∃ s, j = .string s)
      ∧ (isValueTypeSubType (.base .int) j = true
          ↔ (∃ i, j = .number_integer i) ∨ ∃ n, j = .number_unsigned n)
      ∧ (isValueTypeSubType (.base .size_t) j = true ↔ ∃ n, j = .number_unsigned n)
      ∧ (isValueTypeSubType (.base .float) j = true ↔ ∃ d, j = .number_float d)
      ∧ (∀ inner : BaseType, isValueTypeSubType (.vector inner) j = true
          ↔ ∃ entries, j = .array entries
              ∧ ∀ entry ∈ entries, isValueTypeSubType (.base inner) entry = true) := by
  refine ⟨?_, ?_, ?_, ?_, ?_, ?_, ?_, ?_⟩
  · cases hrep : isValueTypeSubType o.type j with
    | false =>
      refine ⟨fun _ => rfl, fun _ => ?_⟩
      unfold ConfigOption.setValueWithJson
      simp only [hrep, Bool.not_false, if_true]
      split
      · exact ⟨_, _, _, rfl⟩
      · exact ⟨_, _, _, rfl⟩
    | true =>
      refine ⟨?_, fun h => by simp at h⟩
      rintro ⟨a, b, c, h⟩
      have hsome := Json.get_isSome roundToFloat o.type j hrep
      rw [Option.isSome_iff_exists] at hsome
      obtain ⟨v, hv⟩ := hsome
      simp [ConfigOption.setValueWithJson, hrep, hv] at h
  · intro hrep
    have hsome := Json.get_isSome roundToFloat o.type j hrep
    rw [Option.isSome_iff_exists] at hsome
    obtain ⟨v, hv⟩ := hsome
    refine ⟨v, hv, ?_⟩
    simp [ConfigOption.setValueWithJson, hrep, hv, ConfigOption.setValue]
  · cases j <;> simp [isValueTypeSubType, isValueTypeSubTypeBase, Json.is_boolean]
  · cases j <;> simp [isValueTypeSubType, isValueTypeSubTypeBase, Json.is_string]
  · cases j <;> simp [isValueTypeSubType, isValueTypeSubTypeBase, Json.is_number_integer]
  · cases j <;> simp [isValueTypeSubType, isValueTypeSubTypeBase, Json.is_number_unsigned]
  · cases j <;> simp [isValueTypeSubType, isValueTypeSubTypeBase, Json.is_number_float]
  · intro inner
    cases j <;> simp [isValueTypeSubType, Json.is_array, Json.entries]

/-- A witness of C19: an option of type `int` accepts the unsigned integer
`4` and raises the exception for the string `four`, and an option of type
vector of `size_t` accepts the array of `1` and `2`. -/
theorem ConfigOption.setValueWithJson_exception_iff_witness :
    isValueTypeSubType (.base .int) (Json.number_unsigned 4 : Json Nat) = true
      ∧ (∃ value, (Json.number_unsigned 4 : Json Nat).get (fun d => d) (.base .int)
            = some value
          ∧ (⟨"n", "", .base .int, none, .int 0, false⟩ : ConfigOption Nat).setValueWithJson
              (fun d => d) (.number_unsigned 4)
            = .ok { (⟨"n", "", .base .int, none, .int 0, false⟩ : ConfigOption Nat) with
                pointee := value, configurationOptionWasSet_ := true })
      ∧ (⟨"n", "", .base .int, none, .int 0, false⟩ : ConfigOption Nat).setValueWithJson
          (fun d => d) (.number_unsigned 4)
        = .ok ⟨"n", "", .base .int, none, .int 4, true⟩
      ∧ (⟨"n", "", .base .int, none, .int 0, false⟩ : ConfigOption Nat).setValueWithJson
          (fun d => d) (.string "four")
        = .error (.ConfigOptionSetWrongJsonTypeException "n" "integer" "string")
      ∧ (⟨"l", "", .vector .size_t, none, .vectorSizeT [], false⟩
            : ConfigOption Nat).setValueWithJson (fun d => d)
          (.array [.number_unsigned 1, .number_unsigned 2])
        = .ok ⟨"l", "", .vector .size_t, none, .vectorSizeT [1, 2], true⟩ :=
  ⟨rfl,
    (ConfigOption.setValueWithJson_exception_iff (fun d => d)
      (⟨"n", "", .base .int, none, .int 0, false⟩ : ConfigOption Nat)
      (.number_unsigned 4)).2.1 rfl,
    by decide, by decide, by decide⟩

end ad_utility

/-! ## Theorems on the iterators for an access operator -/

namespace ad_utility

namespace IteratorForAccessOperator

theorem iterate_increment {C : Type} (c : C) (i : Nat) (hi : i < 2 ^ 64) (k : Nat) :
    increment^[k] (new c i) = new c ((i + k) % 2 ^ 64) := by
  induction k with
  | zero =>
    simp only [Function.iterate_zero, id, new, Nat.add_zero]
    congr 1
    omega
  | succ k ih =>
    rw [Function.iterate_succ_apply', ih]
    simp only [increment, new]
    congr 1
    omega

theorem collect_range {C V : Type} (accessor : C → Nat → V) (c : C) (fuel : Nat) :
    ∀ n i : Nat, n ≤ fuel → i + n < 2 ^ 64 →
      collect accessor fuel (new c i) (new c (i + n))
        = some ((List.range' i n).map (accessor c)) := by
  induction fuel with
  | zero =>
    intro n i hn _
    have hn0 : n = 0 := by omega
    subst hn0
    simp [collect, eq]
  | succ fuel ih =>
    intro n i hn hlt
    cases n with
    | zero => simp [collect, eq]
    | succ n =>
      have hne : (new c i).eq (new c (i + (n + 1))) = false := by
        simp [eq, new]
      have hincr : (new c i).increment = new c (i + 1) := by
        simp only [increment, new]
        congr 1
        omega
      have hlast : new c (i + (n + 1)) = new c (i + 1 + n) := by
        congr 1
        omega
      have hrec := ih n (i + 1) (by omega) (by omega)
      rw [← hlast] at hrec
      simp only [collect, hne, hincr, hrec, List.range'_succ, List.map_cons]
      simp [deref, new]

theorem map_accessViaBracketOperator_range {α : Type} (l : List α) :
    (List.range l.length).map (accessViaBracketOperator l) = l.map some := by
  apply List.ext_getElem?
  intro i
  by_cases hi : i < l.length
  · simp [accessViaBracketOperator, List.getElem?_range, hi]
  · have h1 : (List.range l.length)[i]? = none :=
      List.getElem?_eq_none (by simpa using hi)
    have h2 : l[i]? = none := List.getElem?_eq_none (by simpa using hi)
    simp [h1, h2]

/-- C20: the iterator built from a container `c` and an index `i` yields
`accessor(c, i)`, and after `k` applications of `++` it yields
`accessor(c, i + k)`, the index being a `uint64_t`. The loop from the
iterator at index `0` up to the iterator at index `n` visits the elements
with the indices `0, 1, ..., n - 1` in this order, each once; with the
default accessor these are the elements of the vector. -/
theorem iteration_spec {C V : Type} (accessor : C → Nat → V) (c : C) :
    (∀ i : Nat, (new c i).deref accessor = some (accessor c i))
      ∧ (∀ i k : Nat, i < 2 ^ 64 →
          (increment^[k] (new c i)).deref accessor
            = some (accessor c ((i + k) % 2 ^ 64)))
      ∧ (∀ i k : Nat, i + k < 2 ^ 64 →
          (increment^[k] (new c i)).deref accessor = some (accessor c (i + k)))
      ∧ (∀ n fuel : Nat, n < 2 ^ 64 → n ≤ fuel →
          collect accessor fuel (new c 0) (new c n)
            = some ((List.range n).map (accessor c)))
      ∧ (∀ (α : Type) (l : List α) (fuel : Nat), l.length < 2 ^ 64 →
          l.length ≤ fuel →
          collect accessViaBracketOperator fuel (new l 0) (new l l.length)
            = some (l.map some)) := by
  refine ⟨fun _ => rfl, ?_, ?_, ?_, ?_⟩
  · intro i k hi
    rw [iterate_increment c i hi k]
    rfl
  · intro i k hik
    rw [iterate_increment c i (by omega) k, Nat.mod_eq_of_lt hik]
    rfl
  · intro n fuel hn hfuel
    have h := collect_range accessor c fuel n 0 hfuel (by omega)
    rw [Nat.zero_add] at h
    rw [h, List.range_eq_range']
  · intro α l fuel hl hfuel
    have h := collect_range accessViaBracketOperator l fuel l.length 0 hfuel (by omega)
    rw [Nat.zero_add] at h
    rw [h, ← List.range_eq_range', map_accessViaBracketOperator_range]

/-- A witness of C20: the iterator at the index `1` of the vector
`10, 20, 30`, after one `++`, yields the element `30`, and the loop over the
vector collects its three elements. -/
theorem iteration_spec_witness :
    1 + 1 < 2 ^ 64
      ∧ (increment^[1] (new [10, 20, 30] 1)).deref accessViaBracketOperator
          = some (accessViaBracketOperator [10, 20, 30] (1 + 1))
      ∧ accessViaBracketOperator [10, 20, 30] (1 + 1) = some 30
      ∧ [10, 20, 30].length < 2 ^ 64
      ∧ [10, 20, 30].length ≤ 3
      ∧ collect accessViaBracketOperator 3 (new [10, 20, 30] 0)
          (new [10, 20, 30] [10, 20, 30].length)
        = some ([10, 20, 30].map some) :=
  ⟨by decide,
    (iteration_spec accessViaBracketOperator [10, 20, 30]).2.2.1 1 1 (by decide),
    rfl, by decide, by decide,
    (iteration_spec accessViaBracketOperator [10, 20, 30]).2.2.2.2 Nat [10, 20, 30] 3
      (by decide) (by decide)⟩

end IteratorForAccessOperator

end ad_utility

/-! ## Theorems on the nodes of a triple graph -/

theorem card_insertIfVariable_le (vars : Finset Variable) (c : TripleComponent) :
    (insertIfVariable vars c).card ≤ vars.card + 1 := by
  cases c <;> simp [insertIfVariable, Finset.card_insert_le]

theorem card_insertIfVariablePath_le (vars : Finset Variable) (p : PropertyPath) :
    (insertIfVariablePath vars p).card ≤ vars.card + 1 := by
  unfold insertIfVariablePath
  split
  · exact Finset.card_insert_le _ _
  · omega

/-- C21: `isSimilar` holds if and only if the two nodes have equal triples,
equal context variables, equal word parts and equal sets of variables (two
sets of variables are equal if they have the same members). It does not
depend on the ids: two nodes built from the same triple with different ids
are similar. The relation is reflexive, symmetric and transitive. -/
theorem TripleGraph.Node.isSimilar_spec :
    (∀ a b : TripleGraph.Node, a.isSimilar b = true
        ↔ a._triple = b._triple ∧ a._cvar = b._cvar ∧ a._wordPart = b._wordPart
          ∧ ∀ v, v ∈ a._variables ↔ v ∈ b._variables)
      ∧ (∀ (a b : TripleGraph.Node) (id otherId : Nat),
          ({ a with _id := id } : TripleGraph.Node).isSimilar { b with _id := otherId }
            = a.isSimilar b)
      ∧ (∀ (id otherId : Nat) (t : SparqlTriple),
          (TripleGraph.Node.ofTriple id t).isSimilar (TripleGraph.Node.ofTriple otherId t)
            = true)
      ∧ (∀ a : TripleGraph.Node, a.isSimilar a = true)
      ∧ (∀ a b : TripleGraph.Node, a.isSimilar b = true → b.isSimilar a = true)
      ∧ (∀ a b c : TripleGraph.Node, a.isSimilar b = true → b.isSimilar c = true →
          a.isSimilar c = true) := by
  have hiff : ∀ a b : TripleGraph.Node, a.isSimilar b = true
      ↔ a._triple = b._triple ∧ a._cvar = b._cvar ∧ a._wordPart = b._wordPart
        ∧ a._variables = b._variables := by
    intro a b
    simp [TripleGraph.Node.isSimilar, and_assoc]
  refine ⟨?_, fun _ _ _ _ => rfl, ?_, ?_, ?_, ?_⟩
  · intro a b
    rw [hiff, Finset.ext_iff]
  · intro id otherId t
    rw [hiff]
    exact ⟨rfl, rfl, rfl, rfl⟩
  · intro a
    rw [hiff]
    exact ⟨rfl, rfl, rfl, rfl⟩
  · intro a b h
    rw [hiff] at h ⊢
    exact ⟨h.1.symm, h.2.1.symm, h.2.2.1.symm, h.2.2.2.symm⟩
  · intro a b c hab hbc
    rw [hiff] at hab hbc ⊢
    exact ⟨hab.1.trans hbc.1, hab.2.1.trans hbc.2.1, hab.2.2.1.trans hbc.2.2.1,
      hab.2.2.2.trans hbc.2.2.2⟩

/-- A witness of C21: the nodes with the ids `0` and `7` of the triple
`?s ?p <o>` are similar, and the node of the triple `?s ?p ?s` is not
similar to them. -/
theorem TripleGraph.Node.isSimilar_spec_witness :
    (TripleGraph.Node.ofTriple 0 ⟨.var ⟨"?s"⟩, .IRI "?p", .iri "<o>"⟩).isSimilar
        (TripleGraph.Node.ofTriple 7 ⟨.var ⟨"?s"⟩, .IRI "?p", .iri "<o>"⟩) = true
      ∧ ((TripleGraph.Node.ofTriple 7 ⟨.var ⟨"?s"⟩, .IRI "?p", .iri "<o>"⟩).isSimilar
          (TripleGraph.Node.ofTriple 0 ⟨.var ⟨"?s"⟩, .IRI "?p", .iri "<o>"⟩) = true)
      ∧ (TripleGraph.Node.ofTriple 0 ⟨.var ⟨"?s"⟩, .IRI "?p", .iri "<o>"⟩).isSimilar
          (TripleGraph.Node.ofTriple 0 ⟨.var ⟨"?s"⟩, .IRI "?p", .var ⟨"?s"⟩⟩) = false :=
  ⟨TripleGraph.Node.isSimilar_spec.2.2.1 0 7 _,
    TripleGraph.Node.isSimilar_spec.2.2.2.2.1 _ _
      (TripleGraph.Node.isSimilar_spec.2.2.1 0 7 _),
    by decide⟩

/-- C24: the node built from an id and a triple keeps the id and the
triple, has no context variable and no word part, and its set of variables
has exactly the variables that occur as the subject, the predicate or the
object of the triple, at most three. -/
theorem TripleGraph.Node.ofTriple_spec (id : Nat) (t : SparqlTriple) :
    (TripleGraph.Node.ofTriple id t)._id = id
      ∧ (TripleGraph.Node.ofTriple id t)._triple = t
      ∧ (TripleGraph.Node.ofTriple id t)._cvar = none
      ∧ (TripleGraph.Node.ofTriple id t)._wordPart = none
      ∧ (∀ v : Variable, v ∈ (TripleGraph.Node.ofTriple id t)._variables
          ↔ (t._s = .var v ∨ (isVariablePath t._p = true ∧ v = ⟨t._p._iri⟩)
              ∨ t._o = .var v))
      ∧ (TripleGraph.Node.ofTriple id t)._variables.card ≤ 3 := by
  refine ⟨rfl, rfl, rfl, rfl, ?_, ?_⟩
  · intro v
    simp [TripleGraph.Node.ofTriple, mem_insertVariablesOfTriple, variableOccursIn]
  · simp only [TripleGraph.Node.ofTriple, insertVariablesOfTriple]
    have h1 := card_insertIfVariable_le ∅ t._s
    have h2 := card_insertIfVariablePath_le (insertIfVariable ∅ t._s) t._p
    have h3 := card_insertIfVariable_le
      (insertIfVariablePath (insertIfVariable ∅ t._s) t._p) t._o
    simp only [Finset.card_empty] at h1
    omega

/-! ## Theorems on reading a configuration option -/

namespace ad_utility

theorem ConfigOption.setValueWithJson_ok_wasSet {D : Type} (roundToFloat : D → D)
    (o after : ConfigOption D) (j : Json D)
    (h : o.setValueWithJson roundToFloat j = .ok after) :
    after.wasSetAtRuntime = true ∧ after.wasSet = true := by
  unfold ConfigOption.setValueWithJson at h
  split at h
  · split at h <;> simp at h
  · split at h
    · simp only [Except.ok.injEq] at h
      rw [← h]
      simp [ConfigOption.wasSetAtRuntime, ConfigOption.wasSet]
    · simp at h

/-- C25: `getValueAsString` and `getValueAsJson` fail their contract check
if and only if `wasSet()` is false, and `wasSet()` holds exactly when the
option was set at runtime or has a default value. With a default value, and
after a successful `setValueWithJson`, both return a value. -/
theorem ConfigOption.getValue_contractCheck {D : Type} (floatToString : D → String)
    (roundToFloat : D → D) (o : ConfigOption D) :
    (o.getValueAsString floatToString = .error .contractCheckFailed
        ↔ o.wasSet = false)
      ∧ (o.getValueAsJson = .error .contractCheckFailed ↔ o.wasSet = false)
      ∧ (o.wasSet = true ↔ o.wasSetAtRuntime = true ∨ o.hasDefaultValue = true)
      ∧ (o.wasSet = true →
          o.getValueAsString floatToString
              = .ok (contentOfAvailableTypesToString floatToString (some o.pointee))
            ∧ o.getValueAsJson = .ok o.pointee.toJson)
      ∧ (∀ defaultValue, o.defaultValue_ = some defaultValue →
          o.getValueAsString floatToString
              = .ok (contentOfAvailableTypesToString floatToString (some o.pointee))
            ∧ o.getValueAsJson = .ok o.pointee.toJson)
      ∧ (∀ (j : Json D) (after : ConfigOption D),
          o.setValueWithJson roundToFloat j = .ok after →
          after.getValueAsString floatToString
              = .ok (contentOfAvailableTypesToString floatToString
                  (some after.pointee))
            ∧ after.getValueAsJson = .ok after.pointee.toJson) := by
  have hget : ∀ opt : ConfigOption D, opt.wasSet = true →
      opt.getValueAsString floatToString
          = .ok (contentOfAvailableTypesToString floatToString (some opt.pointee))
        ∧ opt.getValueAsJson = .ok opt.pointee.toJson := by
    intro opt h
    simp [ConfigOption.getValueAsString, ConfigOption.getValueAsJson, h]
  refine ⟨?_, ?_, ?_, hget o, ?_, ?_⟩
  · cases h : o.wasSet <;> simp [ConfigOption.getValueAsString, h]
  · cases h : o.wasSet <;> simp [ConfigOption.getValueAsJson, h]
  · simp [ConfigOption.wasSet]
  · intro d hd
    apply hget
    simp [ConfigOption.wasSet, ConfigOption.hasDefaultValue, hd]
  · intro j after h
    exact hget after (ConfigOption.setValueWithJson_ok_wasSet roundToFloat o after j h).2

/-- A witness of C25: an option of type `int` that was never set and has no
default value fails the contract check; after `setValueWithJson` with the
integer `-7` it renders as `-7`. -/
theorem ConfigOption.getValue_contractCheck_witness :
    (⟨"n", "", .base .int, none, .int 0, false⟩ : ConfigOption Nat).getValueAsString
        (fun d : Nat => toString d) = .error .contractCheckFailed
      ∧ (⟨"n", "", .base .int, none, .int 0, false⟩
          : ConfigOption Nat).setValueWithJson (fun d => d) (.number_integer (-7))
        = .ok ⟨"n", "", .base .int, none, .int (-7), true⟩
      ∧ (⟨"n", "", .base .int, none, .int (-7), true⟩
            : ConfigOption Nat).getValueAsString (fun d : Nat => toString d)
          = .ok (contentOfAvailableTypesToString (fun d : Nat => toString d)
              (some (.int (-7))))
      ∧ contentOfAvailableTypesToString (fun d : Nat => toString d)
          (some (.int (-7))) = "-7" :=
  ⟨((ConfigOption.getValue_contractCheck (fun d : Nat => toString d) (fun d => d)
      (⟨"n", "", .base .int, none, .int 0, false⟩ : ConfigOption Nat)).1).2 rfl,
    by decide,
    ((ConfigOption.getValue_contractCheck (fun d : Nat => toString d) (fun d => d)
      (⟨"n", "", .base .int, none, .int 0, false⟩ : ConfigOption Nat)).2.2.2.2.2
        (.number_integer (-7)) _ (by decide)).1,
    by decide⟩

/-- C26: `availableTypesToString` names `bool` as `boolean`, `string` as
`string`, `int` as `integer`, `size_t` as `unsigned integer`, `float` as
`float`, and a vector as `list of`, the name of the inner type and `s`; the
names of the ten types are pairwise different. -/
theorem availableTypesToString_spec :
    availableTypesToString (.base .bool) = "boolean"
      ∧ availableTypesToString (.base .string) = "string"
      ∧ availableTypesToString (.base .int) = "integer"
      ∧ availableTypesToString (.base .size_t) = "unsigned integer"
      ∧ availableTypesToString (.base .float) = "float"
      ∧ (∀ inner : BaseType, availableTypesToString (.vector inner)
          = "list of " ++ availableTypesToString (.base inner) ++ "s")
      ∧ availableTypesToString (.vector .size_t) = "list of unsigned integers"
      ∧ (∀ t other : ValueType,
          availableTypesToString t = availableTypesToString other → t = other)
      ∧ (∀ t : ValueType, t ∈ ValueType.all)
      ∧ ValueType.all.length = 10
      ∧ (ValueType.all.map availableTypesToString).Nodup := by
  refine ⟨rfl, rfl, rfl, rfl, rfl, fun _ => rfl, by decide, ?_, ?_, rfl, by decide⟩
  · intro t other
    cases t <;> cases other <;> rename_i a b <;> cases a <;> cases b <;>
      first
      | (intro _; rfl)
      | (intro h; exact absurd h (by decide))
  · intro t
    cases t <;> rename_i a <;> cases a <;> decide

/-- A witness of C26: the names of `int` and of the vector of `int` differ,
and the types with the name `list of integers` are the vector of `int`
only. -/
theorem availableTypesToString_spec_witness :
    availableTypesToString (.vector .int) = "list of integers"
      ∧ (availableTypesToString (.vector .int) = availableTypesToString (.vector .int)
          → ValueType.vector .int = ValueType.vector .int)
      ∧ availableTypesToString (.base .int) ≠ availableTypesToString (.vector .int) :=
  ⟨by decide, availableTypesToString_spec.2.2.2.2.2.2.2.1 (.vector .int) (.vector .int),
    by decide⟩

/-- C27: `contentOfAvailableTypesToString` renders an absent value as
`None`, a string in double quotes, a `bool` as `true` or `false`, an integer
as its decimal representation, and a vector as the renderings of its entries,
joined by a comma and a blank, in braces: the empty vector is `{}`, and the
vector of `40`, `-41`, `42` is `{40, -41, 42}`. -/
theorem contentOfAvailableTypesToString_spec {D : Type} (floatToString : D → String) :
    contentOfAvailableTypesToString floatToString none = "None"
      ∧ (∀ s : String, contentOfAvailableTypesToString floatToString (some (.string s))
          = "\"" ++ s ++ "\"")
      ∧ contentOfAvailableTypesToString floatToString (some (.bool true)) = "true"
      ∧ contentOfAvailableTypesToString floatToString (some (.bool false)) = "false"
      ∧ (∀ i : Int, contentOfAvailableTypesToString floatToString (some (.int i))
          = toString i)
      ∧ (∀ n : Nat, contentOfAvailableTypesToString floatToString (some (.size_t n))
          = toString n)
      ∧ (∀ l : List Bool,
          contentOfAvailableTypesToString floatToString (some (.vectorBool l))
            = "\x7b" ++ ", ".intercalate (l.map (fun entry =>
                contentOfAvailableTypesToString floatToString (some (.bool entry))))
              ++ "\x7d")
      ∧ (∀ l : List String,
          contentOfAvailableTypesToString floatToString (some (.vectorString l))
            = "\x7b" ++ ", ".intercalate (l.map (fun entry =>
                contentOfAvailableTypesToString floatToString (some (.string entry))))
              ++ "\x7d")
      ∧ (∀ l : List Int,
          contentOfAvailableTypesToString floatToString (some (.vectorInt l))
            = "\x7b" ++ ", ".intercalate (l.map (fun entry =>
                contentOfAvailableTypesToString floatToString (some (.int entry))))
              ++ "\x7d")
      ∧ (∀ l : List Nat,
          contentOfAvailableTypesToString floatToString (some (.vectorSizeT l))
            = "\x7b" ++ ", ".intercalate (l.map (fun entry =>
                contentOfAvailableTypesToString floatToString (some (.size_t entry))))
              ++ "\x7d")
      ∧ (∀ l : List D,
          contentOfAvailableTypesToString floatToString (some (.vectorFloat l))
            = "\x7b" ++ ", ".intercalate (l.map (fun entry =>
                contentOfAvailableTypesToString floatToString (some (.float entry))))
              ++ "\x7d")
      ∧ contentOfAvailableTypesToString floatToString (some (.vectorInt [])) = "\x7b\x7d"
      ∧ contentOfAvailableTypesToString floatToString (some (.vectorBool [])) = "\x7b\x7d"
      ∧ contentOfAvailableTypesToString floatToString (some (.vectorInt [40, -41, 42]))
          = "\x7b40, -41, 42\x7d"
      ∧ contentOfAvailableTypesToString floatToString
          (some (.vectorBool [true, false])) = "\x7btrue, false\x7d"
      ∧ contentOfAvailableTypesToString floatToString
          (some (.vectorString ["Example", "string", "list"]))
          = "\x7b\"Example\", \"string\", \"list\"\x7d" := by
  refine ⟨rfl, fun _ => rfl, rfl, rfl, fun _ => rfl, fun _ => rfl, fun _ => rfl,
    fun _ => rfl, fun _ => rfl, fun _ => rfl, fun _ => rfl, ?_, ?_, ?_, ?_, ?_⟩
  · show vectorToString (fun entry : Int => toString entry) [] = "\x7b\x7d"
    decide
  · show vectorToString boolToString [] = "\x7b\x7d"
    decide
  · show vectorToString (fun entry : Int => toString entry) [40, -41, 42]
      = "\x7b40, -41, 42\x7d"
    decide
  · show vectorToString boolToString [true, false] = "\x7btrue, false\x7d"
    decide
  · show vectorToString quoteString ["Example", "string", "list"]
      = "\x7b\"Example\", \"string\", \"list\"\x7d"
    decide

theorem ConfigOption.setValueWithJsonStatements_of_wrongType {D : Type}
    (roundToFloat : D → D) (o : ConfigOption D) (j : Json D)
    (hrep : isValueTypeSubType o.type j = false) :
    ∃ typeOfJson,
      o.setValueWithJsonStatements roundToFloat j
          = (o, some (.ConfigOptionSetWrongJsonTypeException o.identifier_
              o.getActualValueTypeAsString typeOfJson))
        ∧ o.setValueWithJson roundToFloat j
          = .error (.ConfigOptionSetWrongJsonTypeException o.identifier_
              o.getActualValueTypeAsString typeOfJson) := by
  unfold ConfigOption.setValueWithJsonStatements ConfigOption.setValueWithJson
  simp only [hrep, Bool.not_false, if_true]
  cases ValueType.all.find? (fun alternativeType => isValueTypeSubType alternativeType j) with
  | none => exact ⟨_, rfl, rfl⟩
  | some t => exact ⟨_, rfl, rfl⟩

theorem ConfigOption.setValueWithJsonStatements_of_value {D : Type}
    (roundToFloat : D → D) (o : ConfigOption D) (j : Json D)
    (hrep : isValueTypeSubType o.type j = true) (value : AvailableTypes D)
    (hvalue : j.get roundToFloat o.type = some value) :
    o.setValueWithJsonStatements roundToFloat j
        = ({ o with pointee := value, configurationOptionWasSet_ := true }, none)
      ∧ o.setValueWithJson roundToFloat j
        = .ok { o with pointee := value, configurationOptionWasSet_ := true } := by
  unfold ConfigOption.setValueWithJsonStatements ConfigOption.setValueWithJson
  simp [hrep, hvalue, ConfigOption.setValue]

/-- C28: a call of `setValueWithJson` that raises
`ConfigOptionSetWrongJsonTypeException` leaves the option as it was: the
value, `wasSetAtRuntime()` and `wasSet()` are the same as before. A call
without an exception sets `wasSetAtRuntime()` to true, and a call that turns
`wasSetAtRuntime()` from false to true is one without an exception. -/
theorem ConfigOption.setValueWithJson_failure_unchanged {D : Type}
    (roundToFloat : D → D) (o : ConfigOption D) (j : Json D) :
    (∀ identifier typeOfOption typeOfJson,
        (o.setValueWithJsonStatements roundToFloat j).2
            = some (.ConfigOptionSetWrongJsonTypeException identifier typeOfOption
                typeOfJson) →
          (o.setValueWithJsonStatements roundToFloat j).1 = o
            ∧ (o.setValueWithJsonStatements roundToFloat j).1.pointee = o.pointee
            ∧ (o.setValueWithJsonStatements roundToFloat j).1.wasSetAtRuntime
                = o.wasSetAtRuntime
            ∧ (o.setValueWithJsonStatements roundToFloat j).1.wasSet = o.wasSet)
      ∧ ((o.setValueWithJsonStatements roundToFloat j).2 = none →
          (o.setValueWithJsonStatements roundToFloat j).1.wasSetAtRuntime = true)
      ∧ (o.wasSetAtRuntime = false →
          (o.setValueWithJsonStatements roundToFloat j).1.wasSetAtRuntime = true →
          (o.setValueWithJsonStatements roundToFloat j).2 = none)
      ∧ (isValueTypeSubType o.type j = false →
          ∃ typeOfJson, o.setValueWithJsonStatements roundToFloat j
            = (o, some (.ConfigOptionSetWrongJsonTypeException o.identifier_
                o.getActualValueTypeAsString typeOfJson)))
      ∧ o.setValueWithJson roundToFloat j
          = (match (o.setValueWithJsonStatements roundToFloat j).2 with
            | none => .ok (o.setValueWithJsonStatements roundToFloat j).1
            | some e => .error e) := by
  cases hrep : isValueTypeSubType o.type j with
  | false =>
    obtain ⟨t, hstate, hexcept⟩ :=
      ConfigOption.setValueWithJsonStatements_of_wrongType roundToFloat o j hrep
    rw [hstate, hexcept]
    refine ⟨fun _ _ _ _ => ⟨rfl, rfl, rfl, rfl⟩, fun h => by simp at h, ?_,
      fun _ => ⟨t, rfl⟩, rfl⟩
    intro hbefore hafter
    rw [hbefore] at hafter
    exact absurd hafter (by simp)
  | true =>
    have hsome := Json.get_isSome roundToFloat o.type j hrep
    rw [Option.isSome_iff_exists] at hsome
    obtain ⟨v, hv⟩ := hsome
    obtain ⟨hstate, hexcept⟩ :=
      ConfigOption.setValueWithJsonStatements_of_value roundToFloat o j hrep v hv
    rw [hstate, hexcept]
    exact ⟨fun _ _ _ h => by simp at h, fun _ => rfl, fun _ _ => rfl,
      fun h => by simp at h, rfl⟩

/-- A witness of C28: an option of type `int` with the value `5` is not
changed by the JSON string `four`. -/
theorem ConfigOption.setValueWithJson_failure_unchanged_witness :
    isValueTypeSubType (.base .int) (Json.string "four" : Json Nat) = false
      ∧ (∃ typeOfJson,
          (⟨"n", "", .base .int, none, .int 5, false⟩
              : ConfigOption Nat).setValueWithJsonStatements (fun d => d)
              (.string "four")
            = (⟨"n", "", .base .int, none, .int 5, false⟩,
                some (.ConfigOptionSetWrongJsonTypeException
                  (⟨"n", "", .base .int, none, .int 5, false⟩
                    : ConfigOption Nat).identifier_
                  (⟨"n", "", .base .int, none, .int 5, false⟩
                    : ConfigOption Nat).getActualValueTypeAsString typeOfJson)))
      ∧ (⟨"n", "", .base .int, none, .int 5, false⟩
          : ConfigOption Nat).setValueWithJsonStatements (fun d => d) (.string "four")
        = (⟨"n", "", .base .int, none, .int 5, false⟩,
            some (.ConfigOptionSetWrongJsonTypeException "n" "integer" "string")) :=
  ⟨rfl,
    (ConfigOption.setValueWithJson_failure_unchanged (fun d => d)
      (⟨"n", "", .base .int, none, .int 5, false⟩ : ConfigOption Nat)
      (.string "four")).2.2.2.1 rfl,
    by decide⟩

/-- C30: the JSON value of `getDummyValueAsJson` of an option represents
the type of the option, whichever of the ten types it is, so
`setValueWithJson` with it succeeds and does not raise
`ConfigOptionSetWrongJsonTypeException`. -/
theorem ConfigOption.getDummyValueAsJson_represents {D : Type}
    (floatLiteral : Nat → Nat → D) (roundToFloat : D → D) (o : ConfigOption D) :
    isValueTypeSubType o.type (o.getDummyValueAsJson floatLiteral) = true
      ∧ (∃ after, o.setValueWithJson roundToFloat (o.getDummyValueAsJson floatLiteral)
          = .ok after)
      ∧ ∀ identifier typeOfOption typeOfJson,
          o.setValueWithJson roundToFloat (o.getDummyValueAsJson floatLiteral)
            ≠ .error (.ConfigOptionSetWrongJsonTypeException identifier typeOfOption
                typeOfJson) := by
  have hrep : isValueTypeSubType o.type (o.getDummyValueAsJson floatLiteral) = true := by
    unfold ConfigOption.getDummyValueAsJson
    cases o.type with
    | base b => cases b <;> rfl
    | vector inner => cases inner <;> rfl
  have hsome := Json.get_isSome roundToFloat o.type _ hrep
  rw [Option.isSome_iff_exists] at hsome
  obtain ⟨v, hv⟩ := hsome
  have hset := (ConfigOption.setValueWithJsonStatements_of_value roundToFloat o _
    hrep v hv).2
  refine ⟨hrep, ⟨_, hset⟩, ?_⟩
  intro a b c h
  rw [hset] at h
  exact absurd h (by simp)

end ad_utility

/-! ## Theorems on options of type float and int -/

namespace ad_utility

/-- C31: an option of type `float` raises
`ConfigOptionSetWrongJsonTypeException` for every JSON integer, signed or
unsigned, because only the JSON floating point numbers represent `float`; an
option of type `int` accepts every unsigned JSON integer. -/
theorem ConfigOption.float_rejects_integers {D : Type} (roundToFloat : D → D)
    (o : ConfigOption D) :
    (o.type = .base .float → ∀ i : Int,
        o.setValueWithJson roundToFloat (.number_integer i)
          = .error (.ConfigOptionSetWrongJsonTypeException o.identifier_ "float"
              "integer"))
      ∧ (o.type = .base .float → ∀ n : Nat,
        o.setValueWithJson roundToFloat (.number_unsigned n)
          = .error (.ConfigOptionSetWrongJsonTypeException o.identifier_ "float"
              "integer"))
      ∧ (∀ j : Json D, isValueTypeSubType (.base .float) j = true
          ↔ ∃ d, j = .number_float d)
      ∧ (o.type = .base .int → ∀ n : Nat,
        o.setValueWithJson roundToFloat (.number_unsigned n)
          = .ok { o with pointee := .int (int32Wrap n),
                         configurationOptionWasSet_ := true }) := by
  refine ⟨?_, ?_, ?_, ?_⟩
  · intro h i
    simp [ConfigOption.setValueWithJson, h, isValueTypeSubType, isValueTypeSubTypeBase,
      Json.is_number_float, Json.is_boolean, Json.is_string, Json.is_number_integer,
      ValueType.all, ConfigOption.getActualValueTypeAsString, availableTypesToString,
      BaseType.toTypeString]
  · intro h n
    simp [ConfigOption.setValueWithJson, h, isValueTypeSubType, isValueTypeSubTypeBase,
      Json.is_number_float, Json.is_boolean, Json.is_string, Json.is_number_integer,
      ValueType.all, ConfigOption.getActualValueTypeAsString, availableTypesToString,
      BaseType.toTypeString]
  · intro j
    cases j <;> simp [isValueTypeSubType, isValueTypeSubTypeBase, Json.is_number_float]
  · intro h n
    have hrep : isValueTypeSubType o.type (Json.number_unsigned n : Json D) = true := by
      rw [h]; rfl
    have hget : (Json.number_unsigned n : Json D).get roundToFloat o.type
        = some (.int (int32Wrap n)) := by
      rw [h]; rfl
    exact (ConfigOption.setValueWithJsonStatements_of_value roundToFloat o _ hrep _
      hget).2

/-- A witness of C31: an option of type `float` rejects the JSON integer
`4`, signed and unsigned, and an option of type `int` accepts the unsigned
`4`. -/
theorem ConfigOption.float_rejects_integers_witness :
    (⟨"f", "", .base .float, none, .float 0, false⟩ : ConfigOption Nat).type
        = .base .float
      ∧ (⟨"f", "", .base .float, none, .float 0, false⟩
          : ConfigOption Nat).setValueWithJson (fun d => d) (.number_integer 4)
        = .error (.ConfigOptionSetWrongJsonTypeException "f" "float" "integer")
      ∧ (⟨"f", "", .base .float, none, .float 0, false⟩
          : ConfigOption Nat).setValueWithJson (fun d => d) (.number_unsigned 4)
        = .error (.ConfigOptionSetWrongJsonTypeException "f" "float" "integer")
      ∧ (⟨"n", "", .base .int, none, .int 0, false⟩ : ConfigOption Nat).type
        = .base .int
      ∧ (⟨"n", "", .base .int, none, .int 0, false⟩
          : ConfigOption Nat).setValueWithJson (fun d => d) (.number_unsigned 4)
        = .ok ⟨"n", "", .base .int, none, .int 4, true⟩ :=
  ⟨rfl,
    (ConfigOption.float_rejects_integers (fun d => d)
      (⟨"f", "", .base .float, none, .float 0, false⟩ : ConfigOption Nat)).1 rfl 4,
    (ConfigOption.float_rejects_integers (fun d => d)
      (⟨"f", "", .base .float, none, .float 0, false⟩ : ConfigOption Nat)).2.1 rfl 4,
    rfl,
    (ConfigOption.float_rejects_integers (fun d => d)
      (⟨"n", "", .base .int, none, .int 0, false⟩ : ConfigOption Nat)).2.2.2 rfl 4⟩

end ad_utility

/-! ## Theorems on the results of MIN and MAX -/

namespace sparqlExpression

/-- One application of the lambda of MIN or MAX returns one of its two
arguments, if an argument of the datatype `Undefined` is the undefined
`Id`. -/
theorem minMaxLambdaForAllTypes_eq_left_or_right
    (compareIds : Id → Id → Comparison → Bool) (comparison : Comparison) (a b : Id)
    (ha : a.getDatatype = .Undefined → a = Id.makeUndefined)
    (hb : b.getDatatype = .Undefined → b = Id.makeUndefined) :
    minMaxLambdaForAllTypes compareIds comparison a b = a
      ∨ minMaxLambdaForAllTypes compareIds comparison a b = b := by
  by_cases hua : a.getDatatype = .Undefined
  · right
    rw [ha hua]
    exact minMaxLambdaForAllTypes_makeUndefined_left compareIds comparison b
  · by_cases hub : b.getDatatype = .Undefined
    · left
      rw [hb hub]
      exact minMaxLambdaForAllTypes_makeUndefined_right compareIds comparison a
    · unfold minMaxLambdaForAllTypes
      rw [if_neg (by simp [hua, hub])]
      split
      · exact Or.inl rfl
      · exact Or.inr rfl

theorem foldl_minMaxLambdaForAllTypes_mem
    (compareIds : Id → Id → Comparison → Bool) (comparison : Comparison)
    (l : List Id) :
    ∀ acc : Id, (acc.getDatatype = .Undefined → acc = Id.makeUndefined) →
      (∀ a ∈ l, a.getDatatype = .Undefined → a = Id.makeUndefined) →
      l.foldl (minMaxLambdaForAllTypes compareIds comparison) acc ∈ acc :: l := by
  induction l with
  | nil => intro acc _ _; simp
  | cons b l ih =>
    intro acc hacc hl
    have hb := hl b (List.mem_cons_self _ _)
    have hrest : ∀ a ∈ l, a.getDatatype = .Undefined → a = Id.makeUndefined :=
      fun a ha => hl a (List.mem_cons_of_mem _ ha)
    rw [List.foldl_cons]
    rcases minMaxLambdaForAllTypes_eq_left_or_right compareIds comparison acc b hacc hb
      with h | h
    · rw [h]
      rcases List.mem_cons.1 (ih acc hacc hrest) with h1 | h1
      · rw [h1]; exact List.mem_cons_self _ _
      · exact List.mem_cons_of_mem _ (List.mem_cons_of_mem _ h1)
    · rw [h]
      exact List.mem_cons_of_mem _ (ih b hb hrest)

theorem map_ActualValueGetter (l : List Id) : l.map ActualValueGetter = l := by
  induction l with
  | nil => rfl
  | cons a l ih => rw [List.map_cons, ih]; rfl

/-- MIN (for `LT`) and MAX (for `GT`) of a non-empty sequence of `Id`s is
one of the `Id`s of the sequence. -/
theorem evaluateOnChildOperand_minMax_mem
    (compareIds : Id → Id → Comparison → Bool) (comparison : Comparison)
    (distinct : Bool) (x : Id) (xs : List Id)
    (hvalid : ∀ a ∈ x :: xs, a.getDatatype = .Undefined → a = Id.makeUndefined) :
    ∃ r, evaluateOnChildOperand
          (AGG_OP (minMaxLambdaForAllTypes compareIds comparison) ActualValueGetter id)
          noop id distinct (x :: xs) = .ok r
      ∧ r ∈ x :: xs := by
  have h := evaluateOnChildOperand_AGG_OP (E := Id)
    (minMaxLambdaForAllTypes compareIds comparison) ActualValueGetter id noop id
    distinct x xs
  rw [map_ActualValueGetter] at h
  refine ⟨_, h, ?_⟩
  have htail : ∀ a ∈ (aggregatedRows distinct (x :: xs)).tail,
      a.getDatatype = .Undefined → a = Id.makeUndefined :=
    fun a ha => hvalid a
      ((mem_aggregatedRows distinct _ a).1 (List.mem_of_mem_tail ha))
  have hmem := foldl_minMaxLambdaForAllTypes_mem compareIds comparison
    (aggregatedRows distinct (x :: xs)).tail x (hvalid x (List.mem_cons_self _ _)) htail
  rw [← aggregatedRows_cons] at hmem
  exact (mem_aggregatedRows distinct _ _).1 hmem

/-- C32, as amended: for every non-empty sequence of `Id`s, in which an `Id` of
the datatype `Undefined` is the undefined `Id` with all bits zero, the result of
MIN and the result of MAX is one of the `Id`s of the sequence, and the
functions of MIN and MAX return one of their two arguments, also when one or
both of them are undefined. -/
theorem minMax_result_in_input (compareIds : Id → Id → Comparison → Bool)
    (distinct : Bool) (x : Id) (xs : List Id)
    (hvalid : ∀ a ∈ x :: xs, a.getDatatype = .Undefined → a = Id.makeUndefined) :
    (∃ r, MinExpression.evaluateOnChildOperand compareIds distinct (x :: xs) = .ok r
        ∧ r ∈ x :: xs)
      ∧ (∃ r, MaxExpression.evaluateOnChildOperand compareIds distinct (x :: xs) = .ok r
        ∧ r ∈ x :: xs)
      ∧ (∀ a ∈ x :: xs, ∀ b ∈ x :: xs,
          (minLambdaForAllTypes compareIds a b = a
              ∨ minLambdaForAllTypes compareIds a b = b)
            ∧ (maxLambdaForAllTypes compareIds a b = a
              ∨ maxLambdaForAllTypes compareIds a b = b))
      ∧ (∀ a : Id,
          minLambdaForAllTypes compareIds a Id.makeUndefined = a
            ∧ minLambdaForAllTypes compareIds Id.makeUndefined a = a
            ∧ maxLambdaForAllTypes compareIds a Id.makeUndefined = a
            ∧ maxLambdaForAllTypes compareIds Id.makeUndefined a = a) :=
  ⟨evaluateOnChildOperand_minMax_mem compareIds .LT distinct x xs hvalid,
    evaluateOnChildOperand_minMax_mem compareIds .GT distinct x xs hvalid,
    fun a ha b hb =>
      ⟨minMaxLambdaForAllTypes_eq_left_or_right compareIds .LT a b (hvalid a ha)
          (hvalid b hb),
        minMaxLambdaForAllTypes_eq_left_or_right compareIds .GT a b (hvalid a ha)
          (hvalid b hb)⟩,
    fun a =>
      ⟨minMaxLambdaForAllTypes_makeUndefined_right compareIds .LT a,
        minMaxLambdaForAllTypes_makeUndefined_left compareIds .LT a,
        minMaxLambdaForAllTypes_makeUndefined_right compareIds .GT a,
        minMaxLambdaForAllTypes_makeUndefined_left compareIds .GT a⟩⟩

/-- A witness of C32: in the column of the undefined `Id`, the integer `3`,
the undefined `Id` and the integer `1`, the minimum is the `Id` of `1` and
the maximum the `Id` of `3`, both from the column. -/
theorem minMax_result_in_input_witness :
    (∀ a ∈ [Id.makeUndefined, Id.makeFromInt 3, Id.makeUndefined, Id.makeFromInt 1],
        a.getDatatype = .Undefined → a = Id.makeUndefined)
      ∧ (∃ r, MinExpression.evaluateOnChildOperand compareIdsByType true
            [Id.makeUndefined, Id.makeFromInt 3, Id.makeUndefined, Id.makeFromInt 1]
            = .ok r
          ∧ r ∈ [Id.makeUndefined, Id.makeFromInt 3, Id.makeUndefined, Id.makeFromInt 1])
      ∧ MinExpression.evaluateOnChildOperand compareIdsByType true
          [Id.makeUndefined, Id.makeFromInt 3, Id.makeUndefined, Id.makeFromInt 1]
        = .ok (Id.makeFromInt 1)
      ∧ MaxExpression.evaluateOnChildOperand compareIdsByType true
          [Id.makeUndefined, Id.makeFromInt 3, Id.makeUndefined, Id.makeFromInt 1]
        = .ok (Id.makeFromInt 3) :=
  ⟨by decide,
    (minMax_result_in_input compareIdsByType true Id.makeUndefined
      [Id.makeFromInt 3, Id.makeUndefined, Id.makeFromInt 1] (by decide)).1,
    by decide, by decide⟩

/-- The counterexample of C32 as stated: the `Id`s of the bits `5` and `10`
both have the datatype `Undefined`; the functions of MIN and MAX return the
`Id` of the bits `15`, the bitwise or of the two, and so do MIN and MAX on
the sequence of the two `Id`s. This `Id` is neither of the two arguments and
does not occur in the sequence. -/
theorem minMax_result_counterexample :
    (Id.fromBits 5).getDatatype = .Undefined
      ∧ (Id.fromBits 10).getDatatype = .Undefined
      ∧ minLambdaForAllTypes compareIdsByType (Id.fromBits 5) (Id.fromBits 10)
        = Id.fromBits 15
      ∧ maxLambdaForAllTypes compareIdsByType (Id.fromBits 5) (Id.fromBits 10)
        = Id.fromBits 15
      ∧ MinExpression.evaluateOnChildOperand compareIdsByType false
          [Id.fromBits 5, Id.fromBits 10] = .ok (Id.fromBits 15)
      ∧ MaxExpression.evaluateOnChildOperand compareIdsByType false
          [Id.fromBits 5, Id.fromBits 10] = .ok (Id.fromBits 15)
      ∧ Id.fromBits 15 ∉ [Id.fromBits 5, Id.fromBits 10] := by
  decide

end sparqlExpression
